import Mathlib

/-!
Verification of the AuthoritySpoke comparison core.

This file is a shallow embedding, in Lean 4, of the comparison algebra of the
AuthoritySpoke repository: the legacy single-file layer (src/spoke.py, with its
quantity-aware Predicate and Fact comparison) and the package layer
(src/authorityspoke: comparisons.py, factors.py, facts.py, rules.py,
holdings.py).

Python values are modelled as follows: strings are Lean String, numbers and
pint magnitudes are Lean ℚ (a pint quantity is stored as its magnitude in a
fixed base unit of its dimension plus a dimensionality string, so that unit
conversion is exact: with millimeters as the length base, 10 meters is
(10000, "[length]") and 20 feet is (6096, "[length]")),
Python dicts are insertion-ordered association lists with unique keys, and
raising an exception is modelled with Except String.  Functions of the package
layer that recurse through nested Factors are written with an explicit fuel
parameter (structural recursion on Nat) so that every definition computes by
kernel reduction; each wrapper supplies a fuel that is large enough for the
whole recursion, and lemmas about the recursive functions carry an explicit
"enough fuel" hypothesis.

Modules of the repository that are imported by the files under src but are not
themselves present under src (predicates.py, entities.py, procedures.py,
enactments.py, groups.py, and the helper Factor._context_registers) are
modelled from the natural-language spec; each such definition carries a doc
comment starting with "Modelled from the spec:".
-/

namespace Spoke

/-- Quantity attached to a legacy Predicate (src/spoke.py): either a plain
number (Python int/float) or a pint quantity, stored as a magnitude in SI base
units together with its dimensionality string. -/
inductive Quantity where
  | plain (mag : ℚ)
  | pint (mag : ℚ) (dim : String)
deriving DecidableEq, Repr

/-- Python truthiness of a quantity: zero is falsy for both plain numbers and
pint quantities. -/
def Quantity.truthy : Quantity → Bool
  | .plain m => m ≠ 0
  | .pint m _ => m ≠ 0

/-- Whether the value has Python type ureg.Quantity. -/
def Quantity.isPint : Quantity → Bool
  | .plain _ => false
  | .pint _ _ => true

/-- Python equality on quantities: pint converts units, so equal base-unit
magnitudes of the same dimensionality are equal; a pint quantity never equals
a bare number, and quantities of different dimensionality are unequal. -/
def Quantity.qeq : Quantity → Quantity → Bool
  | .plain a, .plain b => a = b
  | .pint a d, .pint b e => d = e && a = b
  | _, _ => false

/-- Python less-than on quantities (only ever reached by the source after it
has checked that the two quantities have the same Python type and, for pint,
the same dimensionality). -/
def Quantity.qlt : Quantity → Quantity → Bool
  | .plain a, .plain b => a < b
  | .pint a d, .pint b e => d = e && a < b
  | _, _ => false

/-- Python greater-than on quantities; see Quantity.qlt. -/
def Quantity.qgt : Quantity → Quantity → Bool
  | .plain a, .plain b => b < a
  | .pint a d, .pint b e => d = e && b < a
  | _, _ => false

/-- Truthiness of the optional quantity slot: None is falsy. -/
def qTruthy : Option Quantity → Bool
  | none => false
  | some q => q.truthy

/-- Whether the optional quantity slot holds a pint quantity
(type(self.quantity) == ureg.Quantity in the source; None gives False). -/
def isPintO : Option Quantity → Bool
  | none => false
  | some q => q.isPint

/-- Python == on the optional quantity slots (None == None is True). -/
def qeqO : Option Quantity → Option Quantity → Bool
  | none, none => true
  | some a, some b => a.qeq b
  | _, _ => false

/-- Quantity comparison on optional slots; the source only reaches this after
checking both slots are truthy. -/
def qltO : Option Quantity → Option Quantity → Bool
  | some a, some b => a.qlt b
  | _, _ => false

/-- Quantity comparison on optional slots; see qltO. -/
def qgtO : Option Quantity → Option Quantity → Bool
  | some a, some b => a.qgt b
  | _, _ => false

/-- Dimensionality clash: both slots hold pint quantities whose
dimensionalities differ. -/
def dimClash : Option Quantity → Option Quantity → Bool
  | some (.pint _ d), some (.pint _ e) => d ≠ e
  | _, _ => false

/-- OPPOSITE_COMPARISONS from src/spoke.py.  Note that "=" maps to "!=",
which is not itself a key of the table. -/
def OPPOSITE (c : String) : Option String :=
  if c = ">" then some "<="
  else if c = ">=" then some "<"
  else if c = "=" then some "!="
  else if c = "<>" then some "="
  else if c = "<" then some ">="
  else if c = "<=" then some ">"
  else none

/-- The keys of OPPOSITE_COMPARISONS, the valid comparison strings. -/
def validComparisons : List String := [">", ">=", "=", "<>", "<", "<="]

/-- Truthiness of the optional comparison string: None and "" are falsy. -/
def cTruthy : Option String → Bool
  | none => false
  | some c => c ≠ ""

/-- Python substring test for a single-character needle, as in the source's
expressions of the form (one character) in self.comparison. -/
def charIn (ch : Char) (c : Option String) : Bool :=
  (c.getD "").toList.contains ch

/-- ASCII lower-casing of one character, the fragment of Python str.lower
exercised by this code base. -/
def lowerChar (c : Char) : Char :=
  if 'A' ≤ c ∧ c ≤ 'Z' then Char.ofNat (c.toNat + 32) else c

/-- Lower-cased character list of a string; stands in for Python
str.lower(). -/
def toLowerL (s : String) : List Char :=
  s.toList.map lowerChar

/-- The legacy Predicate of src/spoke.py after construction. -/
structure OldPredicate where
  content : String
  truth : Bool := true
  reciprocal : Bool := false
  comparison : Option String := none
  quantity : Option Quantity := none
deriving DecidableEq, Repr

/-- Number of non-overlapping occurrences of the two-character brace pair in a
character list; implements Python str.count applied to the entity slots. -/
def countBraces : List Char → Nat
  | '{' :: '}' :: rest => 1 + countBraces rest
  | _ :: rest => countBraces rest
  | [] => 0

/-- Number of entity slots in a content string. -/
def countSlots (s : String) : Nat := countBraces s.toList

/-- Predicate.__len__ from src/spoke.py: the brace slots of the content, minus
one when a (truthy) quantity occupies the last slot. -/
def predLen (content : String) (quantity : Option Quantity) : Nat :=
  countSlots content - (if qTruthy quantity then 1 else 0)

/-- Predicate.__eq__ from src/spoke.py: equal content (case-insensitive),
reciprocal flag and quantity; then either truth and comparison both agree, or
the two predicates are obverse quantity statements (opposite comparison
operator with opposite truth). -/
def peq (s o : OldPredicate) : Bool :=
  toLowerL s.content = toLowerL o.content && s.reciprocal = o.reciprocal &&
    qeqO s.quantity o.quantity &&
    ((s.truth = o.truth && s.comparison = o.comparison) ||
      (cTruthy s.comparison &&
        (match s.comparison with
          | some c =>
            match OPPOSITE c with
            | some oc => o.comparison = some oc
            | none => false
          | none => false) &&
        s.truth ≠ o.truth))

/-- Predicate.__gt__ from src/spoke.py: whether s implies o.  True when they
are equal, or when both carry truthy quantities and comparisons of compatible
Python type and dimensionality whose admissible ranges are nested. -/
def pgt (s o : OldPredicate) : Bool :=
  if peq s o then true
  else if !(toLowerL s.content = toLowerL o.content && s.reciprocal = o.reciprocal) then false
  else if !(qTruthy s.quantity && qTruthy o.quantity && cTruthy s.comparison &&
      cTruthy o.comparison) then false
  else if isPintO s.quantity ≠ isPintO o.quantity then false
  else if isPintO s.quantity && dimClash s.quantity o.quantity then false
  else if charIn '<' s.comparison && (charIn '<' o.comparison || charIn '=' o.comparison) &&
      qltO s.quantity o.quantity then true
  else if charIn '>' s.comparison && (charIn '>' o.comparison || charIn '=' o.comparison) &&
      qgtO s.quantity o.quantity then true
  else if charIn '=' s.comparison && charIn '<' o.comparison &&
      qltO s.quantity o.quantity then true
  else if charIn '=' s.comparison && charIn '>' o.comparison &&
      qgtO s.quantity o.quantity then true
  else if charIn '=' s.comparison && charIn '=' o.comparison &&
      qeqO s.quantity o.quantity then true
  else if !charIn '=' s.comparison && !charIn '=' o.comparison &&
      qeqO s.quantity o.quantity then true
  else false

/-- Predicate.contradicts from src/spoke.py.  The Python-type and
dimensionality guards come first, then exact content and reciprocal equality;
with truthy quantities the operator/magnitude table applies, otherwise the
predicates contradict when content matches and truth differs. -/
def pcontradicts (s o : OldPredicate) : Bool :=
  if isPintO s.quantity ≠ isPintO o.quantity then false
  else if isPintO s.quantity && dimClash s.quantity o.quantity then false
  else if !(s.content = o.content && s.reciprocal = o.reciprocal) then false
  else if qTruthy s.quantity && qTruthy o.quantity then
    (if (charIn '<' s.comparison || charIn '=' s.comparison) && charIn '<' o.comparison &&
        qgtO s.quantity o.quantity then true
    else if (charIn '>' s.comparison || charIn '=' s.comparison) && charIn '>' o.comparison &&
        qltO s.quantity o.quantity then true
    else if charIn '>' s.comparison && charIn '=' o.comparison &&
        qgtO s.quantity o.quantity then true
    else if charIn '<' s.comparison && charIn '=' o.comparison &&
        qltO s.quantity o.quantity then true
    else if charIn '=' s.comparison && !charIn '=' o.comparison &&
        qeqO s.quantity o.quantity then true
    else if !charIn '=' s.comparison && charIn '=' o.comparison &&
        !qeqO s.quantity o.quantity then true
    else false)
  else s.content = o.content && s.truth ≠ o.truth

/-- The legacy Fact of src/spoke.py: a Predicate plus the absent flag. -/
structure OldFact where
  predicate : OldPredicate
  absent : Bool := false
deriving DecidableEq, Repr

/-- Fact.__gt__ from src/spoke.py: predicate implication with matching absent
flags. -/
def fgt (s o : OldFact) : Bool :=
  pgt s.predicate o.predicate && s.absent = o.absent

/-- Predicate.__post_init__ from src/spoke.py as a fallible constructor: the
reciprocal arity check, the normalization of "==" and "!=", the rewriting of a
false quantity comparison into its opposite operator (a failed table lookup is
the Python KeyError), and the validity check on the comparison string. -/
def mkPredicateOld (content : String) (truth reciprocal : Bool)
    (comparison : Option String) (quantity : Option Quantity) :
    Except String OldPredicate :=
  if predLen content quantity < 2 && reciprocal then
    .error "reciprocal flag not allowed: fewer than 2 entities"
  else
    let c1 : Option String :=
      if comparison = some "==" then some "="
      else if comparison = some "!=" then some "<>"
      else comparison
    let step : Except String (Bool × Option String) :=
      if cTruthy c1 && !truth then
        match c1 with
        | some c =>
          match OPPOSITE c with
          | some oc => .ok (true, some oc)
          | none => .error "KeyError in OPPOSITE_COMPARISONS"
        | none => .ok (truth, c1)
      else .ok (truth, c1)
    match step with
    | .error e => .error e
    | .ok (truth2, c2) =>
      if cTruthy c2 && !(validComparisons.contains (c2.getD "")) then
        .error "comparison string parameter must be one of the valid operators"
      else .ok ⟨content, truth2, reciprocal, c2, quantity⟩

/-- Concrete predicate content reused by the C4 and C5 examples. -/
def cDistance : String := "the distance between {} and {} was {}"

/-- The predicate asserting a quantity at least 30 (plain number). -/
def pGe30 : OldPredicate := ⟨cDistance, true, false, some ">=", some (.plain 30)⟩

/-- The predicate asserting a quantity at least 20 (plain number). -/
def pGe20 : OldPredicate := ⟨cDistance, true, false, some ">=", some (.plain 20)⟩

/-- The predicate asserting a quantity exactly 25 (plain number). -/
def pEq25 : OldPredicate := ⟨cDistance, true, false, some "=", some (.plain 25)⟩

/-- The predicate asserting a quantity greater than 20 (plain number). -/
def pGt20 : OldPredicate := ⟨cDistance, true, false, some ">", some (.plain 20)⟩

/-- The predicate asserting a quantity no more than 35 (plain number). -/
def pLe35 : OldPredicate := ⟨cDistance, true, false, some "<=", some (.plain 35)⟩

/-- Predicate asserting a distance of at least 10 meters.  Pint converts
compatible units to a common base; length magnitudes are recorded here in
millimeters so that the conversion is exact integer arithmetic:
10 m = 10000 mm. -/
def pMeters : OldPredicate :=
  ⟨cDistance, true, true, some ">=", some (.pint 10000 "[length]")⟩

/-- Predicate asserting a distance of at least 20 feet:
20 ft = 20 × 304.8 mm = 6096 mm. -/
def pFeet : OldPredicate :=
  ⟨cDistance, true, true, some ">=", some (.pint 6096 "[length]")⟩

/-- Fact asserting the 10-meter distance predicate. -/
def fMeters : OldFact := ⟨pMeters, false⟩

/-- Fact asserting the 20-foot distance predicate. -/
def fFeet : OldFact := ⟨pFeet, false⟩

end Spoke

namespace AS

/-- Modelled from the spec: the package-layer Predicate (predicates.py is
imported by src/authorityspoke/facts.py but is not present under src).  Spec
section 3 gives it a templated content clause, a truth flag and a reciprocal
flag, plus an optional comparison/quantity pair; the claims against this layer
only exercise quantity-free predicates, so the comparison and quantity slots
are omitted here. -/
structure PredicateN where
  content : String
  truth : Bool := true
  reciprocal : Bool := false
deriving DecidableEq, Repr

/-- The package-layer Factor universe needed by the claims: the Entity leaf
(entities.py, modelled from the spec: a Factor subtype carrying a name and a
plural flag in addition to the shared name/generic/absent attributes) and the
Fact of src/authorityspoke/facts.py (a Predicate filled by an ordered tuple of
context factors, with an optional name and standard of proof). -/
inductive Factor where
  | entity (name : String) (generic : Bool) (plural : Bool) (absent : Bool)
  | fact (predicate : PredicateN) (context_factors : List Factor)
      (name : Option String) (standard_of_proof : Option String)
      (absent : Bool) (generic : Bool)

mutual

/-- Structural equality of Factors, mirroring the field-by-field equality of
frozen Python dataclasses. -/
def beqF : Factor → Factor → Bool
  | .entity n g p a, .entity n2 g2 p2 a2 => n = n2 && g = g2 && p = p2 && a = a2
  | .fact pr cf n s a g, .fact pr2 cf2 n2 s2 a2 g2 =>
    pr = pr2 && beqFL cf cf2 && n = n2 && s = s2 && a = a2 && g = g2
  | _, _ => false

/-- Structural equality of Factor lists. -/
def beqFL : List Factor → List Factor → Bool
  | [], [] => true
  | f :: fs, g :: gs => beqF f g && beqFL fs gs
  | _, _ => false

end

mutual

theorem beqF_iff : ∀ a b : Factor, beqF a b = true ↔ a = b
  | .entity n g p a, .entity n2 g2 p2 a2 => by simp [beqF, and_assoc]
  | .entity _ _ _ _, .fact _ _ _ _ _ _ => by simp [beqF]
  | .fact _ _ _ _ _ _, .entity _ _ _ _ => by simp [beqF]
  | .fact pr cf n s a g, .fact pr2 cf2 n2 s2 a2 g2 => by
    simp [beqF, beqFL_iff cf cf2, and_assoc]

theorem beqFL_iff : ∀ xs ys : List Factor, beqFL xs ys = true ↔ xs = ys
  | [], [] => by simp [beqFL]
  | [], _ :: _ => by simp [beqFL]
  | _ :: _, [] => by simp [beqFL]
  | x :: xs, y :: ys => by simp [beqFL, beqF_iff x y, beqFL_iff xs ys]

end

instance instDecEqFactor : DecidableEq Factor := fun a b =>
  decidable_of_iff (beqF a b = true) (beqF_iff a b)

/-- The absent flag of a Factor. -/
def Factor.absentF : Factor → Bool
  | .entity _ _ _ a => a
  | .fact _ _ _ _ a _ => a

/-- The generic flag of a Factor. -/
def Factor.genericF : Factor → Bool
  | .entity _ g _ _ => g
  | .fact _ _ _ _ _ g => g

/-- Whether the Factor is an Entity (used for the source's isinstance checks
between the concrete Factor classes). -/
def Factor.isEntity : Factor → Bool
  | .entity _ _ _ _ => true
  | .fact _ _ _ _ _ _ => false

/-- Python truthiness of a Factor.  Fact defines __len__ as the length of its
context_factors tuple, so a Fact with no context factors is falsy; Entity
defines no __len__ and is always truthy. -/
def Factor.pyTruthy : Factor → Bool
  | .entity _ _ _ _ => true
  | .fact _ cf _ _ _ _ => !cf.isEmpty

mutual

/-- Structural size of a Factor, used to compute recursion fuel. -/
def fsizeF : Factor → Nat
  | .entity _ _ _ _ => 1
  | .fact _ cf _ _ _ _ => 1 + fsizeFL cf

/-- Structural size of a Factor list. -/
def fsizeFL : List Factor → Nat
  | [] => 0
  | f :: fs => fsizeF f + fsizeFL fs

end

/-- Order-preserving deduplication, mirroring the dict-of-None idiom the
source uses to deduplicate generic factors while keeping first-seen order. -/
def dedupF (l : List Factor) : List Factor :=
  l.foldl (fun acc f => if f ∈ acc then acc else acc ++ [f]) []

mutual

/-- Factor.generic_factors from src/authorityspoke/factors.py: a generic
Factor stands for itself; a concrete Factor collects the generic factors of
its non-null context factors, first-seen order, deduplicated. -/
def genericFactors : Factor → List Factor
  | .entity n g p a => if g then [.entity n g p a] else []
  | .fact pr cf n s a g =>
    if g then [.fact pr cf n s a g] else dedupF (genericFactorsL cf)

/-- Concatenated generic factors of a list of context factors. -/
def genericFactorsL : List Factor → List Factor
  | [] => []
  | f :: fs => genericFactors f ++ genericFactorsL fs

end

mutual

/-- Whether every context factor reachable inside the Factor is truthy (this
is the well-formedness condition under which the comparison pre-filter
compare_context_factors can succeed; a zero-length Fact nested as a context
factor is falsy and makes the pre-filter fail). -/
def wfChildren : Factor → Bool
  | .entity _ _ _ _ => true
  | .fact _ cf _ _ _ _ => wfChildrenL cf

/-- wfChildren over a list of context factors. -/
def wfChildrenL : List Factor → Bool
  | [] => true
  | f :: fs => f.pyTruthy && wfChildren f && wfChildrenL fs

end

/-- A ContextRegister (src/authorityspoke/comparisons.py): a Python dict from
Factors to Factors, modelled as an insertion-ordered association list with
unique keys. -/
abbrev Reg := List (Factor × Factor)

/-- Python dict lookup (ContextRegister.get). -/
def lookupReg : Reg → Factor → Option Factor
  | [], _ => none
  | (k2, v) :: rest, k => if k2 = k then some v else lookupReg rest k

/-- Python dict item assignment: replace the value in place when the key
exists (keeping its position), otherwise append the new pair. -/
def setReg : Reg → Factor → Factor → Reg
  | [], k, v => [(k, v)]
  | (k2, v2) :: rest, k, v =>
    if k2 = k then (k2, v) :: rest else (k2, v2) :: setReg rest k v

/-- The keys of a register, in order. -/
def regKeys (r : Reg) : List Factor := r.map Prod.fst

/-- The values of a register, in order (Python dict .values()). -/
def regValues (r : Reg) : List Factor := r.map Prod.snd

/-- ContextRegister.reversed from src/authorityspoke/comparisons.py: the dict
comprehension swapping keys and values (later duplicates override earlier
ones, as in Python). -/
def revReg (r : Reg) : Reg :=
  r.foldl (fun acc p => setReg acc p.2 p.1) []

/-- The loop of ContextRegister.merged_with from
src/authorityspoke/comparisons.py, processing the incoming pairs in order
against the accumulated mapping.  A falsy incoming value is skipped entirely;
a truthy incoming value conflicts when the key is already mapped to a truthy
different value; after assignment, the merge fails when the value now appears
more than once among the dict values. -/
def mergedGo : Reg → Reg → Option Reg
  | acc, [] => some acc
  | acc, (k, v) :: rest =>
    if v.pyTruthy then
      if (match lookupReg acc k with
          | some old => old.pyTruthy && old ≠ v
          | none => false) then none
      else
        let acc2 := setReg acc k v
        if 1 < (regValues acc2).count v then none
        else mergedGo acc2 rest
    else mergedGo acc rest

/-- ContextRegister.merged_with: copy self, then merge the incoming pairs. -/
def mergedWith (a b : Reg) : Option Reg := mergedGo a b

/-- The failure condition stated by the spec for merged_with: some incoming
pair would remap an already-mapped key to a different value, or would use one
right-hand value for two different keys. -/
def MergeConflict (a b : Reg) : Prop :=
  ∃ p ∈ b, (∃ q ∈ a, q.1 = p.1 ∧ q.2 ≠ p.2) ∨
    (∃ q ∈ a, q.1 ≠ p.1 ∧ q.2 = p.2) ∨
    (∃ q ∈ b, q.1 ≠ p.1 ∧ q.2 = p.2)

/-- Conflict of one incoming pair p against the accumulated register acc and
the incoming batch rest: the key of p is already mapped (by lookup) to a
different value, or the value of p is already used by a different key of acc,
or by a different key elsewhere in the batch. -/
def StepConflict (acc rest : Reg) (p : Factor × Factor) : Prop :=
  (∃ old, lookupReg acc p.1 = some old ∧ old ≠ p.2) ∨
    (∃ q ∈ acc, q.1 ≠ p.1 ∧ q.2 = p.2) ∨
    (∃ q ∈ rest, q.1 ≠ p.1 ∧ q.2 = p.2)

/-- Python dict(zip(xs, ys)): pair the lists positionally and build a dict,
later occurrences of a key overriding earlier ones. -/
def zipDict (gs hs : List Factor) : Reg :=
  (List.zip gs hs).foldl (fun acc p => setReg acc p.1 p.2) []

/-- A concrete truth-free Predicate used by several examples. -/
def pRain : PredicateN := ⟨"it rained", true, false⟩

/-- A concrete zero-slot, zero-context Fact: its Python length is 0, so it is
falsy. -/
def factZero : Factor := .fact pRain [] none none false false

/-- A concrete generic Entity. -/
def entAlice : Factor := .entity "Alice" true false false

/-- A concrete generic Entity. -/
def entBea : Factor := .entity "Bea" true false false

/-- A concrete generic Entity. -/
def entCarl : Factor := .entity "Carl" true false false

/-- A concrete generic Entity. -/
def entDora : Factor := .entity "Dora" true false false

/-- Modelled from the spec: same-meaning of quantity-free package-layer
Predicates (predicates.py absent from src): equal content up to case, equal
truth and equal reciprocal flag (spec section 4.3). -/
def predMeansN (p q : PredicateN) : Bool :=
  Spoke.toLowerL p.content = Spoke.toLowerL q.content &&
    p.truth = q.truth && p.reciprocal = q.reciprocal

/-- Modelled from the spec: implication of quantity-free package-layer
Predicates; spec section 4.3 says non-quantity predicates imply only when
equal. -/
def predGeN (p q : PredicateN) : Bool := predMeansN p q

/-- Modelled from the spec: contradiction of quantity-free package-layer
Predicates; spec section 4.3 says content matches but truth differs. -/
def predContrN (p q : PredicateN) : Bool :=
  Spoke.toLowerL p.content = Spoke.toLowerL q.content &&
    p.reciprocal = q.reciprocal && p.truth ≠ q.truth

/-- The allowable standards of proof of src/authorityspoke/facts.py, weakest
first. -/
def standardsOfProof : List String :=
  ["scintilla of evidence", "substantial evidence", "preponderance of evidence",
    "clear and convincing", "beyond reasonable doubt"]

/-- Index of a standard of proof in the ordered list. -/
def sopIndex (s : String) : Nat := standardsOfProof.indexOf s

/-- Whether the first standard of proof is strictly weaker than the second;
the source only evaluates this when both are present. -/
def sopLt : Option String → Option String → Bool
  | some a, some b => sopIndex a < sopIndex b
  | _, _ => false

/-- Modelled from the spec: Factor._context_registers, which is called by
factors.py and facts.py but is not defined under src.  Following spec section
4.2 and the _update_context_from_factors helper that is in factors.py, it
pairs the generic factors of the two sides positionally and merges that
incoming mapping into the running context, yielding the merged register or
nothing on conflict. -/
def ctxRegs (x y : Factor) (ctx : Reg) : List Reg :=
  match mergedWith ctx (zipDict (genericFactors x) (genericFactors y)) with
  | some m => [m]
  | none => []

/-- Fact construction (Fact.__post_init__ from src/authorityspoke/facts.py):
an unknown standard of proof and an arity mismatch between the predicate's
slots and the context factors are construction-time errors. -/
def mkFact (p : PredicateN) (cfs : List Factor) (nm : Option String)
    (sop : Option String) (ab g : Bool) : Except String Factor :=
  if (match sop with
      | some s => !(standardsOfProof.contains s)
      | none => false) then
    .error "standard of proof must be one of the allowed standards or None"
  else if cfs.length ≠ Spoke.countSlots p.content then
    .error "the number of items in context_factors must match the predicate's slots"
  else .ok (.fact p cfs nm sop ab g)

mutual

/-- Factor.explanations_implication from src/authorityspoke/factors.py, with
explicit fuel: same concrete class required; with both sides present delegate
to _implies_if_present; a present self against an absent other uses
_contradicts_if_present; with self absent the operands are swapped, the
context is reversed going in, and each resulting register is reversed. -/
def geExplF : Nat → Factor → Factor → Reg → List Reg
  | 0, _, _, _ => []
  | n + 1, x, y, ctx =>
    if x.isEntity = y.isEntity then
      if !x.absentF then
        (if !y.absentF then iipF n x y ctx else cipF n x y ctx)
      else
        (if y.absentF then (iipF n y x (revReg ctx)).map revReg
        else (cipF n y x (revReg ctx)).map revReg)
    else []

/-- Factor.explanations_contradiction from src/authorityspoke/factors.py,
with explicit fuel: present/present delegates to _contradicts_if_present,
present/absent to _implies_if_present, and an absent self swaps the operands
and reverses the registers. -/
def contrExplF : Nat → Factor → Factor → Reg → List Reg
  | 0, _, _, _ => []
  | n + 1, x, y, ctx =>
    if x.isEntity = y.isEntity then
      if !x.absentF then
        (if !y.absentF then cipF n x y ctx else iipF n x y ctx)
      else
        (if !y.absentF then (iipF n y x (revReg ctx)).map revReg
        else (cipF n y x (revReg ctx)).map revReg)
    else []

/-- Factor._implies_if_present from src/authorityspoke/factors.py: if the
other Factor is generic and the running context either does not map self or
maps it to other, yield the one-pair register; if self is not generic,
continue with _implies_if_concrete. -/
def iipF : Nat → Factor → Factor → Reg → List Reg
  | 0, _, _, _ => []
  | n + 1, x, y, ctx =>
    (if y.genericF && (match lookupReg ctx x with
        | none => true
        | some w => w = y) then [[(x, y)]] else []) ++
      (if !x.genericF then iicF n x y ctx else [])

/-- _implies_if_concrete: for Facts (src/authorityspoke/facts.py) the
standards of proof must agree in presence and self's may not be weaker, and
self's predicate must imply other's; then the Factor-level part
(factors.py) requires the pairwise ge pre-filter on context factors before
yielding the context registers.  For Entities (modelled from the spec:
entities.py absent from src) the concrete attributes name and plural must
match. -/
def iicF : Nat → Factor → Factor → Reg → List Reg
  | 0, _, _, _ => []
  | n + 1, .entity nm g pl ab, .entity nm2 g2 pl2 ab2, ctx =>
    if nm = nm2 && pl = pl2 then
      ctxRegs (.entity nm g pl ab) (.entity nm2 g2 pl2 ab2) ctx
    else []
  | n + 1, .fact pr cf nm sop ab g, .fact pr2 cf2 nm2 sop2 ab2 g2, ctx =>
    if sop.isSome = sop2.isSome && !(sop.isSome && sopLt sop sop2) &&
        predGeN pr pr2 then
      (if cgaF n cf cf2 then
        ctxRegs (.fact pr cf nm sop ab g) (.fact pr2 cf2 nm2 sop2 ab2 g2) ctx
      else [])
    else []
  | _ + 1, _, _, _ => []

/-- _contradicts_if_present: the Factor-level default yields nothing (this is
what Entities inherit); Facts (src/authorityspoke/facts.py) yield the context
registers when their predicates contradict. -/
def cipF : Nat → Factor → Factor → Reg → List Reg
  | 0, _, _, _ => []
  | n + 1, .fact pr cf nm sop ab g, .fact pr2 cf2 nm2 sop2 ab2 g2, ctx =>
    if predContrN pr pr2 then
      ctxRegs (.fact pr cf nm sop ab g) (.fact pr2 cf2 nm2 sop2 ab2 g2) ctx
    else []
  | _ + 1, _, _, _ => []

/-- compare_context_factors with operator.ge (src/authorityspoke/factors.py):
every pairwise position must have a truthy left factor that implies the right
factor (each implication test starts from a fresh empty context, as
Factor.__ge__ does); a left overhang of the right list makes the source index
out of range, modelled as failure. -/
def cgaF : Nat → List Factor → List Factor → Bool
  | 0, _, _ => false
  | _ + 1, [], _ => true
  | _ + 1, _ :: _, [] => false
  | n + 1, f :: fs, g :: gs =>
    (f.pyTruthy && !(geExplF n f g []).isEmpty) && cgaF n fs gs

end

mutual

/-- Factor.explanations_same_meaning from src/authorityspoke/factors.py, with
explicit fuel: same concrete class, same absent flag and same generic flag
required; a generic self yields the one-pair register, and _means_if_concrete
is consulted as well. -/
def meansExplF : Nat → Factor → Factor → Reg → List Reg
  | 0, _, _, _ => []
  | n + 1, x, y, ctx =>
    if x.isEntity = y.isEntity && x.absentF = y.absentF &&
        x.genericF = y.genericF then
      (if x.genericF then [[(x, y)]] else []) ++ micF n x y ctx
    else []

/-- _means_if_concrete: for Facts (src/authorityspoke/facts.py) the
predicates must have the same meaning and the standards of proof must be
equal; then the Factor-level part (factors.py) requires the pairwise means
pre-filter on context factors before yielding the context registers.  For
Entities (modelled from the spec) the concrete attributes must match. -/
def micF : Nat → Factor → Factor → Reg → List Reg
  | 0, _, _, _ => []
  | n + 1, .entity nm g pl ab, .entity nm2 g2 pl2 ab2, ctx =>
    if nm = nm2 && pl = pl2 then
      ctxRegs (.entity nm g pl ab) (.entity nm2 g2 pl2 ab2) ctx
    else []
  | n + 1, .fact pr cf nm sop ab g, .fact pr2 cf2 nm2 sop2 ab2 g2, ctx =>
    if predMeansN pr pr2 && sop = sop2 then
      (if cmaF n cf cf2 then
        ctxRegs (.fact pr cf nm sop ab g) (.fact pr2 cf2 nm2 sop2 ab2 g2) ctx
      else [])
    else []
  | _ + 1, _, _, _ => []

/-- compare_context_factors with the means relation
(src/authorityspoke/factors.py); see cgaF. -/
def cmaF : Nat → List Factor → List Factor → Bool
  | 0, _, _ => false
  | _ + 1, [], _ => true
  | _ + 1, _ :: _, [] => false
  | n + 1, f :: fs, g :: gs =>
    (f.pyTruthy && !(meansExplF n f g []).isEmpty) && cmaF n fs gs

end

/-- Fuel that is large enough for the whole mutual recursion over the two
Factors. -/
def FUEL (x y : Factor) : Nat := 16 * (fsizeF x + fsizeF y) + 16

/-- Factor.explanations_implication at its canonical fuel. -/
def explanationsImplication (x y : Factor) (ctx : Reg) : List Reg :=
  geExplF (FUEL x y) x y ctx

/-- Comparable.implies for Factors (src/authorityspoke/comparisons.py): some
explanation is yielded (explanations never yield None, so this is
non-emptiness of the sequence); the context defaults to empty. -/
def factorGe (x y : Factor) : Bool :=
  !(explanationsImplication x y []).isEmpty

/-- Factor.explanations_contradiction at its canonical fuel. -/
def explanationsContradiction (x y : Factor) (ctx : Reg) : List Reg :=
  contrExplF (FUEL x y) x y ctx

/-- Comparable.contradicts for Factors. -/
def factorContradicts (x y : Factor) : Bool :=
  !(explanationsContradiction x y []).isEmpty

/-- Factor.explanations_same_meaning at its canonical fuel. -/
def explanationsSameMeaning (x y : Factor) (ctx : Reg) : List Reg :=
  meansExplF (FUEL x y) x y ctx

/-- Comparable.means for Factors. -/
def factorMeans (x y : Factor) : Bool :=
  !(explanationsSameMeaning x y []).isEmpty

/-- Modelled from the spec: a Procedure (procedures.py absent from src) is an
outputs/inputs/despite triple of Factor groups (spec section 3). -/
structure Procedure where
  outputs : List Factor := []
  inputs : List Factor := []
  despite : List Factor := []
deriving DecidableEq

/-- One pair of the group-matching search: the per-pair register obtained by
zipping the two factors' generic factors, merged into the running context
(spec section 4.4 together with _update_context_from_factors of
factors.py). -/
def pairMerge (ctx : Reg) (n a : Factor) : Option Reg :=
  mergedWith ctx (zipDict (genericFactors n) (genericFactors a))

/-- Modelled from the spec: the group-matching backtracking search of spec
section 4.4: pick the next unmatched need item, try each available item that
satisfies the relation, merge the per-pair register into the running register
(pruning on merge conflict), recurse on the remainder, and yield the
completed register at the base case. -/
def groupExpl (rel : Factor → Factor → Bool) :
    List Factor → List Factor → Reg → List Reg
  | [], _, ctx => [ctx]
  | n :: rest, avail, ctx =>
    avail.flatMap (fun a =>
      if rel n a then
        match pairMerge ctx n a with
        | some m => groupExpl rel rest avail m
        | none => []
      else [])

/-- Modelled from the spec: Procedure.explain_implication_all_to_some (spec
section 4.6(c)): every output of other implied by an output of self, every
input of other implied by an input of self, and every despite factor of other
implied by a despite factor or input of self, threading one register. -/
def procExplImplicationAllToSome (p q : Procedure) (ctx : Reg) : List Reg :=
  (groupExpl factorGe q.outputs p.outputs ctx).flatMap fun c1 =>
    (groupExpl factorGe q.inputs p.inputs c1).flatMap fun c2 =>
      groupExpl factorGe q.despite (p.despite ++ p.inputs) c2

/-- Modelled from the spec: Procedure.explain_implication_all_to_all (spec
section 4.6(c), the direct matching without the quantifier flip): outputs of
other from outputs of self, inputs of self from inputs of other. -/
def procExplImplicationAllToAll (p q : Procedure) (ctx : Reg) : List Reg :=
  (groupExpl factorGe q.outputs p.outputs ctx).flatMap fun c1 =>
    (groupExpl factorGe p.inputs q.inputs c1).flatMap fun c2 =>
      groupExpl factorGe q.despite (p.despite ++ p.inputs) c2

/-- Modelled from the spec: Procedure.explain_implication, the SOME-to-SOME
direct matching (spec section 4.6(c)). -/
def procExplImplication (p q : Procedure) (ctx : Reg) : List Reg :=
  procExplImplicationAllToAll p q ctx

/-- Modelled from the spec: Procedure.explain_contradiction_some_to_all (spec
section 4.6): a register for every pair of outputs of the two procedures that
contradict under a consistent context. -/
def procExplContradictionSomeToAll (p q : Procedure) (ctx : Reg) : List Reg :=
  p.outputs.flatMap fun o1 =>
    q.outputs.flatMap fun o2 =>
      if factorContradicts o1 o2 then
        match pairMerge ctx o1 o2 with
        | some m => [m]
        | none => []
      else []

/-- Modelled from the spec: Procedure.means (spec sections 4.2 and 4.5):
groups of equal sizes whose members can be matched pairwise by the means
relation under one consistent register. -/
def procMeans (p q : Procedure) : Bool :=
  p.outputs.length = q.outputs.length && p.inputs.length = q.inputs.length &&
    p.despite.length = q.despite.length &&
    !((groupExpl factorMeans q.outputs p.outputs []).flatMap (fun c1 =>
      (groupExpl factorMeans q.inputs p.inputs c1).flatMap (fun c2 =>
        groupExpl factorMeans q.despite p.despite c2))).isEmpty

/-- Modelled from the spec: the generic factors of a Procedure, collected
over all three groups, first-seen order, deduplicated. -/
def procGenericFactors (p : Procedure) : List Factor :=
  dedupF ((p.outputs ++ p.inputs ++ p.despite).flatMap genericFactors)

/-- Modelled from the spec: an Enactment (enactments.py absent from src) is a
legal-text citation, compared by meaning as text overlap/subset (spec
glossary); the text is carried as its list of words. -/
structure Enactment where
  text : List String
deriving DecidableEq

/-- Modelled from the spec: Enactment implication as text subset: a covers b
when every word of b's text appears in a's. -/
def enactGe (a b : Enactment) : Bool :=
  b.text.all (fun w => a.text.contains w)

/-- Modelled from the spec: Enactment same-meaning as mutual text subset. -/
def enactMeans (a b : Enactment) : Bool := enactGe a b && enactGe b a

/-- The Rule of src/authorityspoke/rules.py: a Procedure plus its enactment
support and the mandatory/universal quantifier flags. -/
structure Rule where
  procedure : Procedure := {}
  enactments : List Enactment := []
  enactments_despite : List Enactment := []
  mandatory : Bool := false
  universal : Bool := false
  generic : Bool := false
  name : Option String := none
deriving DecidableEq

/-- Python >= on booleans (True >= False and so on). -/
def bge (a b : Bool) : Bool := a || !b

/-- Rule.needs_subset_of_enactments from src/authorityspoke/rules.py: every
enactment of self is covered by an enactment of other, and every
despite-enactment of other is covered by an enactment or despite-enactment of
self. -/
def needsSubsetOfEnactments (r s : Rule) : Bool :=
  r.enactments.all (fun e => s.enactments.any (fun f => enactGe f e)) &&
    s.enactments_despite.all (fun d =>
      (r.enactments ++ r.enactments_despite).any (fun e => enactGe e d))

/-- Rule.explain_implication from src/authorityspoke/rules.py: the enactment
subset test and both quantifier flags must pass; ALL-implies-SOME uses the
all-to-some procedure matching, an other-side ALL uses all-to-all, and the
SOME/SOME case uses the plain procedure implication. -/
def ruleExplImplication (r s : Rule) (ctx : Reg) : List Reg :=
  if needsSubsetOfEnactments r s && bge r.mandatory s.mandatory &&
      bge r.universal s.universal then
    if r.universal && !s.universal then
      procExplImplicationAllToSome r.procedure s.procedure ctx
    else if s.universal then
      procExplImplicationAllToAll r.procedure s.procedure ctx
    else procExplImplication r.procedure s.procedure ctx
  else []

/-- Rule.implies from src/authorityspoke/rules.py: any(explain_implication),
which tests Python truthiness of each register, so only a non-empty register
counts. -/
def ruleImplies (r s : Rule) (ctx : Reg) : Bool :=
  (ruleExplImplication r s ctx).any (fun reg => !reg.isEmpty)

/-- Rule.explain_contradiction from src/authorityspoke/rules.py: the
some-to-all procedure contradiction in both directions (the reversed
direction reverses its registers), ordered by the universal flags; a register
sequence is yielded unconditionally at the end, so the flags only affect
order, not emptiness. -/
def ruleExplContradiction (r s : Rule) (ctx : Reg) : List Reg :=
  let s2o := procExplContradictionSomeToAll r.procedure s.procedure ctx
  let o2s := (procExplContradictionSomeToAll s.procedure r.procedure
    (revReg ctx)).map revReg
  if s.universal && !r.universal then s2o ++ o2s
  else if r.universal && !s.universal then o2s ++ s2o
  else s2o ++ o2s

/-- Rule.contradicts from src/authorityspoke/rules.py: False outright when
neither Rule is mandatory, False outright when neither is universal, and
otherwise non-emptiness of explain_contradiction (the registers are tested
against None, so an empty register counts here). -/
def ruleContradicts (r s : Rule) (ctx : Reg) : Bool :=
  if !r.mandatory && !s.mandatory then false
  else if !r.universal && !s.universal then false
  else !(ruleExplContradiction r s ctx).isEmpty

/-- Rule.has_all_same_enactments from src/authorityspoke/rules.py: every
enactment of other, in both roles, has a same-meaning counterpart in self's
matching role. -/
def hasAllSameEnactments (r s : Rule) : Bool :=
  s.enactments.all (fun oe => r.enactments.any (fun se => enactMeans oe se)) &&
    s.enactments_despite.all (fun oe =>
      r.enactments_despite.any (fun se => enactMeans oe se))

/-- Rule.means from src/authorityspoke/rules.py: same procedure meaning, the
same enactments in both directions, and equal quantifier flags. -/
def ruleMeans (r s : Rule) : Bool :=
  procMeans r.procedure s.procedure && hasAllSameEnactments r s &&
    hasAllSameEnactments s r && r.mandatory = s.mandatory &&
    r.universal = s.universal

/-- The generic factors of a (non-generic) Rule, from its Procedure. -/
def ruleGenericFactors (r : Rule) : List Factor :=
  procGenericFactors r.procedure

/-- Modelled from the spec: the Rule-layer same-meaning explanation sequence
(spec section 4.1: the boolean means is defined as non-emptiness of
explanations_same_meaning; rules.py computes the boolean directly, and the
generic Factor fallback depends on the procedures/groups modules absent from
src).  When the Rules mean the same, the single explanation pairs their
generic factors. -/
def ruleExplSameMeaning (r s : Rule) (ctx : Reg) : List Reg :=
  if ruleMeans r s then
    match mergedWith ctx (zipDict (ruleGenericFactors r) (ruleGenericFactors s)) with
    | some m => [m]
    | none => []
  else []

/-- Set the absent flag of a Factor to the given value (Factor.evolve with an
explicit absent entry). -/
def Factor.setAbsent : Factor → Bool → Factor
  | .entity n g p _, b => .entity n g p b
  | .fact pr cf n s _ g, b => .fact pr cf n s b g

/-- Toggle the absent flag (Factor.evolve("absent")). -/
def Factor.toggleAbsent (f : Factor) : Factor := f.setAbsent (!f.absentF)

/-- Rule.get_contrapositives from src/authorityspoke/rules.py: errors unless
there is exactly one output, the output is not absent, and there is at least
one input; otherwise, one Rule per input with the quantifier flags flipped,
that input negated as the sole input, and the output made absent as the sole
output.  The errors are raised from this generator, not at construction. -/
def getContrapositives (r : Rule) : Except String (List Rule) :=
  match r.procedure.outputs with
  | [o] =>
    if o.absentF then
      .error "the exclusive attribute is not allowed for Rules with an absent output Factor"
    else if r.procedure.inputs.isEmpty then
      .error "the exclusive attribute is not allowed for Rules with no input Factors"
    else .ok (r.procedure.inputs.map (fun i =>
      { r with
        mandatory := !r.mandatory,
        universal := !r.universal,
        procedure :=
          { outputs := [o.setAbsent true],
            inputs := [i.toggleAbsent],
            despite := r.procedure.despite } }))
  | _ =>
    .error "the exclusive attribute is not allowed for Rules with more than one output Factor"

/-- The Holding of src/authorityspoke/holdings.py: a Rule plus the validity,
decidedness and exclusivity flags. -/
structure Holding where
  rule : Rule
  rule_valid : Bool := true
  decided : Bool := true
  exclusive : Bool := false
  generic : Bool := false
deriving DecidableEq

/-- Holding.__post_init__ from src/authorityspoke/holdings.py: exclusive
requires rule_valid and decided; nothing else is checked at construction (in
particular, the output count of the rule is not). -/
def mkHolding (r : Rule) (rv d ex g : Bool) : Except String Holding :=
  if ex && !rv then
    .error "rule_valid cannot be False while exclusive is True"
  else if ex && !d then
    .error "decided cannot be False while exclusive is True"
  else .ok ⟨r, rv, d, ex, g⟩

/-- Holding.negated: opposite rule_valid, exclusive reset to False. -/
def Holding.negated (h : Holding) : Holding :=
  ⟨h.rule, !h.rule_valid, h.decided, false, h.generic⟩

/-- Holding.nonexclusive_holdings from src/authorityspoke/holdings.py: a
non-exclusive Holding stands alone; an exclusive one expands to itself with
exclusive dropped plus one Holding per contrapositive Rule (the expansion
errors when get_contrapositives does). -/
def nonexclusiveHoldings (h : Holding) : Except String (List Holding) :=
  if !h.exclusive then .ok [h]
  else
    match getContrapositives h.rule with
    | .error e => .error e
    | .ok rs =>
      .ok (⟨h.rule, h.rule_valid, h.decided, false, h.generic⟩ ::
        rs.map (fun r => ⟨r, true, true, false, false⟩))

/-- Holding._implies_if_decided from src/authorityspoke/holdings.py: with
both validity flags set, the first rule's implication explanations toward the
second; with both unset, the reversed direction; with mixed validity, the
first rule's contradiction explanations toward the second.  The Rule-layer
sequences are the rules.py explain_implication / explain_contradiction
(modelled from the spec, since holdings.py names them explanations_* and the
generic Factor fallback depends on modules absent from src). -/
def implDecidedSeq (h1 h2 : Holding) (ctx : Reg) : List Reg :=
  if h1.rule_valid && h2.rule_valid then ruleExplImplication h1.rule h2.rule ctx
  else if !h1.rule_valid && !h2.rule_valid then
    ruleExplImplication h2.rule h1.rule ctx
  else ruleExplContradiction h1.rule h2.rule ctx

/-- Holding.explanations_same_meaning from src/authorityspoke/holdings.py:
requires equal rule_valid and equal decided, then delegates to the Rule-layer
same-meaning sequence. -/
def holdingSameSeq (h1 h2 : Holding) (ctx : Reg) : List Reg :=
  if h1.rule_valid = h2.rule_valid && h1.decided = h2.decided then
    ruleExplSameMeaning h1.rule h2.rule ctx
  else []

/-- Holding._explanations_implies_if_not_exclusive from
src/authorityspoke/holdings.py: both decided delegates to
_implies_if_decided; both undecided chains same-meaning with self against
other and against other negated; mixed decidedness yields nothing. -/
def impliesNESeq (h1 h2 : Holding) (ctx : Reg) : List Reg :=
  if h1.decided && h2.decided then implDecidedSeq h1 h2 ctx
  else if !h1.decided && !h2.decided then
    holdingSameSeq h1 h2 ctx ++ holdingSameSeq h1 h2.negated ctx
  else []

/-- Implication between two non-exclusive Holdings: some explanation exists
(explanations never yield None). -/
def impliesNE (h1 h2 : Holding) (ctx : Reg) : Bool :=
  !(impliesNESeq h1 h2 ctx).isEmpty

/-- HoldingGroup.verbose_comparison from src/authorityspoke/holdings.py,
specialized to the ge operation, processing the still-needed holdings from
the back (list.pop).  When a holding matches but the recursion on the
remainder yields nothing, the source's next(next_step) raises (a generator
that raises StopIteration becomes a RuntimeError). -/
def verboseGo (g : List Holding) : List Holding → Except String Bool
  | [] => .ok true
  | o :: rest =>
    if g.any (fun s => impliesNE s o []) then
      match verboseGo g rest with
      | .ok true => .ok true
      | .ok false => .error "RuntimeError: generator raised StopIteration"
      | .error e => .error e
    else .ok false

/-- Group-level implication: every holding of the second group must be
implied by some holding of the first. -/
def verboseNE (g still : List Holding) : Except String Bool :=
  verboseGo g still.reverse

/-- Holding.implies from src/authorityspoke/holdings.py: two non-exclusive
holdings compare directly; otherwise both sides are expanded to their
non-exclusive holding groups and compared with the group search. -/
def holdingImplies (h1 h2 : Holding) (ctx : Reg) : Except String Bool :=
  if !h1.exclusive && !h2.exclusive then .ok (impliesNE h1 h2 ctx)
  else
    match nonexclusiveHoldings h1, nonexclusiveHoldings h2 with
    | .ok g1, .ok g2 => verboseNE g1 g2
    | .error e, _ => .error e
    | _, .error e => .error e

/-- Holding._contradicts_if_not_exclusive from
src/authorityspoke/holdings.py: nothing unless other is decided; a decided
self implies other's negation; an undecided self chains other's
_implies_if_decided toward self and toward self's negation (each called
without a context). -/
def contraNESeq (h1 h2 : Holding) (ctx : Reg) : List Reg :=
  if h2.decided then
    if h1.decided then impliesNESeq h1 h2.negated ctx
    else implDecidedSeq h2 h1 [] ++ implDecidedSeq h2 h1.negated []
  else []

/-- Holding.contradicts (Comparable.contradicts over
Holding.explanations_contradiction): both sides are expanded to their
non-exclusive groups, and some pair must yield a contradiction
explanation. -/
def holdingContradicts (h1 h2 : Holding) (ctx : Reg) : Except String Bool :=
  match nonexclusiveHoldings h1, nonexclusiveHoldings h2 with
  | .ok g1, .ok g2 =>
    .ok (g1.any (fun a => g2.any (fun b => !(contraNESeq a b ctx).isEmpty)))
  | .error e, _ => .error e
  | _, .error e => .error e

/-- Holding.means (Comparable.means over explanations_same_meaning). -/
def holdingMeans (h1 h2 : Holding) : Bool :=
  !(holdingSameSeq h1 h2 []).isEmpty

instance instDecEqExcept {α β : Type} [DecidableEq α] [DecidableEq β] :
    DecidableEq (Except α β) := fun a b =>
  match a, b with
  | .ok x, .ok y =>
    if h : x = y then .isTrue (by rw [h])
    else .isFalse (by intro hc; cases hc; exact h rfl)
  | .error x, .error y =>
    if h : x = y then .isTrue (by rw [h])
    else .isFalse (by intro hc; cases hc; exact h rfl)
  | .ok _, .error _ => .isFalse (by intro hc; cases hc)
  | .error _, .ok _ => .isFalse (by intro hc; cases hc)

/-- Whether a Holding satisfies the constructor's invariant. -/
def HoldingWF (h : Holding) : Prop :=
  h.exclusive = true → h.rule_valid = true ∧ h.decided = true

/-- A one-slot predicate. -/
def pOutside : PredicateN := ⟨"{} was outside", true, false⟩

/-- A concrete Fact with one generic entity in its single slot. -/
def factE : Factor := .fact pOutside [entAlice] none none false false

/-- A Procedure whose single output carries a generic entity. -/
def procGeneric : Procedure := ⟨[factE], [], []⟩

/-- A Procedure whose single output is the concrete zero-slot Fact, with no
generic factors at all. -/
def procConcrete : Procedure := ⟨[factZero], [], []⟩

/-- A concrete enactment citation. -/
def enactCite : Enactment := ⟨["no", "vehicles", "in", "the", "park"]⟩

/-- The MUST/ALL Rule over the generic-bearing procedure. -/
def ruleMustAll : Rule := ⟨procGeneric, [enactCite], [], true, true, false, none⟩

/-- The MAY/SOME Rule over the same procedure and citations. -/
def ruleMaySome : Rule := ⟨procGeneric, [enactCite], [], false, false, false, none⟩

/-- A MAY/SOME Rule over the generic-free procedure. -/
def ruleConcrete : Rule := ⟨procConcrete, [], [], false, false, false, none⟩

/-- A one-slot predicate about being armed. -/
def pArmed : PredicateN := ⟨"{} was armed", true, false⟩

/-- The negated armed predicate. -/
def pUnarmed : PredicateN := ⟨"{} was armed", false, false⟩

/-- Fact asserting the armed predicate of a generic entity. -/
def factArmed : Factor := .fact pArmed [entAlice] none none false false

/-- Fact asserting the negated armed predicate of the same entity. -/
def factUnarmed : Factor := .fact pUnarmed [entAlice] none none false false

/-- A non-mandatory universal Rule outputting the armed Fact. -/
def ruleArmed : Rule := ⟨⟨[factArmed], [], []⟩, [], [], false, true, false, none⟩

/-- A non-mandatory universal Rule outputting the contradictory Fact. -/
def ruleUnarmed : Rule := ⟨⟨[factUnarmed], [], []⟩, [], [], false, true, false, none⟩

/-- An undecided Holding positing the MUST/ALL rule. -/
def holdingUndecided : Holding := ⟨ruleMustAll, true, false, false, false⟩

/-- A decided Holding positing the MAY/SOME rule. -/
def holdingDecided : Holding := ⟨ruleMaySome, true, true, false, false⟩

/-- A Rule with two outputs, for the exclusive-flag error path. -/
def ruleTwoOutputs : Rule :=
  ⟨⟨[factArmed, factE], [factZero], []⟩, [], [], false, false, false, none⟩

/-- The Holding that asserts ruleTwoOutputs exclusively; it constructs
without error. -/
def holdingTwoOutputs : Holding := ⟨ruleTwoOutputs, true, true, true, false⟩

end AS

namespace Spoke

/-- C4: quantity-bearing predicate implication follows interval containment
(at least 30 implies at least 20; exactly 25 implies both greater than 20 and
no more than 35), and two predicates without quantities stand in the
implication relation exactly when they are equal under Predicate.__eq__. -/
theorem C4_predicate_implication :
    (pgt pGe30 pGe20 = true ∧ pgt pEq25 pGt20 = true ∧ pgt pEq25 pLe35 = true) ∧
    (∀ s o : OldPredicate, s.quantity = none → o.quantity = none →
      (pgt s o = true ↔ peq s o = true)) := by
  refine ⟨by decide, ?_⟩
  intro s o hs _
  by_cases h : peq s o = true
  · simp [pgt, h]
  · have h0 : peq s o = false := by
      cases hp : peq s o
      · rfl
      · exact absurd hp h
    simp [pgt, h0, hs, qTruthy]

/-- C4 witness: the universal clause of C4 instantiated at two concrete
quantity-free predicates. -/
theorem C4_predicate_implication_witness :
    (⟨"it was raining", true, false, none, none⟩ : OldPredicate).quantity = none ∧
    (⟨"it was raining", false, false, none, none⟩ : OldPredicate).quantity = none ∧
    (pgt ⟨"it was raining", true, false, none, none⟩
        ⟨"it was raining", false, false, none, none⟩ = true ↔
      peq ⟨"it was raining", true, false, none, none⟩
        ⟨"it was raining", false, false, none, none⟩ = true) :=
  ⟨by decide, by decide,
    C4_predicate_implication.2 _ _ (by decide) (by decide)⟩

/-- C5: a Fact asserting a distance of at least 10 meters implies a Fact
asserting a distance of at least 20 feet (units are converted), and two
predicates whose quantities are pint quantities of different dimensionality
never imply and never contradict each other. -/
theorem C5_unit_conversion_and_dimensionality :
    (fgt fMeters fFeet = true) ∧
    (∀ (s o : OldPredicate) (v w : ℚ) (d e : String),
      s.quantity = some (.pint v d) → o.quantity = some (.pint w e) → d ≠ e →
      pgt s o = false ∧ pcontradicts s o = false) := by
  refine ⟨by decide, ?_⟩
  intro s o v w d e hs ho hde
  have hneq : peq s o = false := by
    have hq : qeqO s.quantity o.quantity = false := by
      rw [hs, ho]; simp [qeqO, Quantity.qeq, hde]
    simp [peq, hq]
  constructor
  · simp [pgt, hneq, hs, ho, dimClash, hde, isPintO, Quantity.isPint, qTruthy,
      Quantity.truthy, qltO, qgtO, qeqO, Quantity.qlt, Quantity.qgt, Quantity.qeq]
  · simp [pcontradicts, hs, ho, dimClash, hde, isPintO, Quantity.isPint]

/-- C5 witness: the universal clause of C5 instantiated at a length predicate
and an area predicate. -/
theorem C5_unit_conversion_witness :
    (⟨cDistance, true, false, some ">=", some (.pint 10 "[length]")⟩ :
        OldPredicate).quantity = some (.pint 10 "[length]") ∧
    (⟨cDistance, true, false, some ">=", some (.pint 10 "[area]")⟩ :
        OldPredicate).quantity = some (.pint 10 "[area]") ∧
    ("[length]" : String) ≠ "[area]" ∧
    (pgt ⟨cDistance, true, false, some ">=", some (.pint 10 "[length]")⟩
        ⟨cDistance, true, false, some ">=", some (.pint 10 "[area]")⟩ = false ∧
      pcontradicts ⟨cDistance, true, false, some ">=", some (.pint 10 "[length]")⟩
        ⟨cDistance, true, false, some ">=", some (.pint 10 "[area]")⟩ = false) :=
  ⟨by decide, by decide, by decide,
    C5_unit_conversion_and_dimensionality.2 _ _ 10 10 "[length]" "[area]"
      (by decide) (by decide) (by decide)⟩

end Spoke


namespace AS

lemma mergedGo_cons (acc : Reg) (k v : Factor) (rest : Reg) :
    mergedGo acc ((k, v) :: rest) =
      if v.pyTruthy then
        if (match lookupReg acc k with
            | some old => old.pyTruthy && old ≠ v
            | none => false) then none
        else if 1 < (regValues (setReg acc k v)).count v then none
        else mergedGo (setReg acc k v) rest
      else mergedGo acc rest := rfl

lemma lookupReg_mem {acc : Reg} {k v : Factor} (h : lookupReg acc k = some v) :
    (k, v) ∈ acc := by
  induction acc with
  | nil => simp [lookupReg] at h
  | cons q rest ih =>
    obtain ⟨k2, v2⟩ := q
    simp only [lookupReg] at h
    by_cases hk : k2 = k
    · rw [if_pos hk] at h
      cases h
      subst hk
      exact List.mem_cons_self _ _
    · rw [if_neg hk] at h
      exact List.mem_cons_of_mem _ (ih h)

lemma lookupReg_none_iff {acc : Reg} {k : Factor} :
    lookupReg acc k = none ↔ ∀ q ∈ acc, q.1 ≠ k := by
  induction acc with
  | nil => simp [lookupReg]
  | cons q rest ih =>
    obtain ⟨k2, v2⟩ := q
    simp only [lookupReg]
    by_cases hk : k2 = k
    · simp [hk]
    · simp [hk, ih]

lemma lookupReg_eq_some_iff {acc : Reg} {k v : Factor}
    (hnd : (regKeys acc).Nodup) : lookupReg acc k = some v ↔ (k, v) ∈ acc := by
  constructor
  · exact lookupReg_mem
  · intro hm
    induction acc with
    | nil => simp at hm
    | cons q rest ih =>
      obtain ⟨k2, v2⟩ := q
      simp only [regKeys, List.map_cons, List.nodup_cons] at hnd
      rcases List.mem_cons.mp hm with h | h
      · cases h
        simp [lookupReg]
      · have hk : k2 ≠ k := by
          intro hkk
          subst hkk
          exact hnd.1 (List.mem_map.mpr ⟨(k2, v), h, rfl⟩)
        simp only [lookupReg, if_neg hk]
        exact ih hnd.2 h

lemma setReg_self {acc : Reg} {k v : Factor} (h : lookupReg acc k = some v) :
    setReg acc k v = acc := by
  induction acc with
  | nil => simp [lookupReg] at h
  | cons q rest ih =>
    obtain ⟨k2, v2⟩ := q
    simp only [lookupReg] at h
    by_cases hk : k2 = k
    · rw [if_pos hk] at h
      cases h
      simp [setReg, hk]
    · rw [if_neg hk] at h
      simp [setReg, hk, ih h]

lemma setReg_fresh {acc : Reg} {k : Factor} (v : Factor)
    (h : lookupReg acc k = none) : setReg acc k v = acc ++ [(k, v)] := by
  induction acc with
  | nil => simp [setReg]
  | cons q rest ih =>
    obtain ⟨k2, v2⟩ := q
    simp only [lookupReg] at h
    by_cases hk : k2 = k
    · rw [if_pos hk] at h
      cases h
    · rw [if_neg hk] at h
      simp [setReg, hk, ih h]

lemma lookupReg_append_left {l1 l2 : Reg} {k : Factor} {v : Factor}
    (h : lookupReg l1 k = some v) : lookupReg (l1 ++ l2) k = some v := by
  induction l1 with
  | nil => simp [lookupReg] at h
  | cons q rest ih =>
    obtain ⟨k2, v2⟩ := q
    simp only [lookupReg, List.cons_append] at h ⊢
    by_cases hk : k2 = k
    · rw [if_pos hk] at h ⊢
      exact h
    · rw [if_neg hk] at h ⊢
      exact ih h

lemma lookupReg_append_fresh {l1 : Reg} {k kb vb : Factor}
    (h : lookupReg l1 k = none) :
    lookupReg (l1 ++ [(kb, vb)]) k = if kb = k then some vb else none := by
  induction l1 with
  | nil => simp [lookupReg]
  | cons q rest ih =>
    obtain ⟨k2, v2⟩ := q
    simp only [lookupReg] at h
    by_cases hk : k2 = k
    · rw [if_pos hk] at h
      cases h
    · rw [if_neg hk] at h
      simp only [List.cons_append, lookupReg, if_neg hk]
      exact ih h

lemma exists_mem_ne_of_one_lt_length {α : Type} {l : List α} {a : α}
    (hnd : l.Nodup) (hlen : 1 < l.length) : ∃ b ∈ l, b ≠ a := by
  by_contra hcon
  push_neg at hcon
  match l, hlen with
  | x :: y :: rest, _ =>
    have hx : x = a := hcon x (by simp)
    have hy : y = a := hcon y (by simp)
    rw [List.nodup_cons] at hnd
    exact hnd.1 (by rw [hx, ← hy]; simp)

lemma two_le_length_of_two_mem {α : Type} {l : List α} {a b : α}
    (ha : a ∈ l) (hb : b ∈ l) (hab : a ≠ b) : 1 < l.length := by
  match l with
  | [] => simp at ha
  | [x] =>
    simp at ha hb
    exact absurd (ha.trans hb.symm) hab
  | x :: y :: rest => simp [Nat.lt_add_one_iff]

lemma count_values_filter (v : Factor) : ∀ acc : Reg,
    (regValues acc).count v = (acc.filter (fun q => q.2 = v)).length
  | [] => rfl
  | (k2, v2) :: rest => by
    have ih := count_values_filter v rest
    simp only [regValues, List.map_cons, List.count_cons, List.filter_cons] at ih ⊢
    by_cases hv : v2 = v
    · subst hv
      simp [ih]
    · simp [hv, ih]

lemma nodup_of_keys_nodup {acc : Reg} (hnd : (regKeys acc).Nodup) :
    acc.Nodup := List.Nodup.of_map _ hnd

lemma one_lt_count_iff_mem {acc : Reg} {k v : Factor}
    (hnd : (regKeys acc).Nodup) (hm : (k, v) ∈ acc) :
    (1 < (regValues acc).count v ↔ ∃ q ∈ acc, q.1 ≠ k ∧ q.2 = v) := by
  rw [count_values_filter]
  constructor
  · intro hlen
    have hndf : (acc.filter (fun q => q.2 = v)).Nodup :=
      (nodup_of_keys_nodup hnd).filter _
    obtain ⟨q, hq, hqne⟩ :=
      exists_mem_ne_of_one_lt_length (a := (k, v)) hndf hlen
    have hq2 := List.mem_filter.mp hq
    refine ⟨q, hq2.1, ?_, by simpa using hq2.2⟩
    intro hq1
    apply hqne
    have hv2 : q.2 = v := by simpa using hq2.2
    exact Prod.ext hq1 hv2
  · rintro ⟨q, hq, hq1, hq2⟩
    have h1 : (k, v) ∈ acc.filter (fun q => q.2 = v) :=
      List.mem_filter.mpr ⟨hm, by simp⟩
    have h2 : q ∈ acc.filter (fun q => q.2 = v) :=
      List.mem_filter.mpr ⟨hq, by simp [hq2]⟩
    exact two_le_length_of_two_mem h2 h1 (by
      intro hqe
      exact hq1 (by rw [hqe]))

lemma one_lt_count_fresh_iff {acc : Reg} {k v : Factor}
    (h : lookupReg acc k = none) :
    (1 < (regValues (acc ++ [(k, v)])).count v ↔
      ∃ q ∈ acc, q.1 ≠ k ∧ q.2 = v) := by
  have hv : regValues (acc ++ [(k, v)]) = regValues acc ++ [v] := by
    simp [regValues]
  have hone : List.count v [v] = 1 := by simp
  rw [hv, List.count_append, hone]
  have hiff : (1 < (regValues acc).count v + 1) ↔ 0 < (regValues acc).count v := by
    omega
  rw [hiff, List.count_pos_iff]
  constructor
  · intro hmem
    obtain ⟨q, hq, hq2⟩ := List.mem_map.mp hmem
    exact ⟨q, hq, lookupReg_none_iff.mp h q hq, hq2⟩
  · rintro ⟨q, hq, _, hq2⟩
    exact List.mem_map.mpr ⟨q, hq, hq2⟩

theorem mergedGo_spec :
    ∀ (rest acc : Reg),
      (∀ p ∈ acc, p.2.pyTruthy = true) →
      (∀ p ∈ rest, p.2.pyTruthy = true) →
      (regKeys acc).Nodup → (regKeys rest).Nodup →
      ((mergedGo acc rest = none ↔ ∃ p ∈ rest, StepConflict acc rest p) ∧
        (∀ m, mergedGo acc rest = some m →
          (∀ p ∈ acc, p ∈ m) ∧ (∀ p ∈ rest, p ∈ m)))
  | [], acc => by
    intro _ _ _ _
    constructor
    · simp [mergedGo]
    · intro m hm
      simp only [mergedGo, Option.some.injEq] at hm
      subst hm
      exact ⟨fun p hp => hp, by simp⟩
  | (k, v) :: rest', acc => by
    intro hta htb hka hkb
    have hv : v.pyTruthy = true := htb (k, v) (by simp)
    have hkb' : (regKeys rest').Nodup := by
      have := hkb
      simp only [regKeys, List.map_cons, List.nodup_cons] at this
      exact this.2
    have hkhead : ∀ q ∈ rest', q.1 ≠ k := by
      intro q hq hqk
      simp only [regKeys, List.map_cons, List.nodup_cons] at hkb
      exact hkb.1 (List.mem_map.mpr ⟨q, hq, hqk⟩)
    have htb' : ∀ p ∈ rest', p.2.pyTruthy = true := fun p hp =>
      htb p (List.mem_cons_of_mem _ hp)
    rw [mergedGo_cons, hv, if_pos rfl]
    rcases hlk : lookupReg acc k with _ | old
    · -- fresh key: the assignment appends (k, v)
      rw [if_neg (by simp)]
      rw [setReg_fresh v hlk]
      by_cases hcnt : 1 < (regValues (acc ++ [(k, v)])).count v
      · rw [if_pos hcnt]
        refine ⟨?_, by intro m hm; cases hm⟩
        refine iff_of_true rfl ⟨(k, v), by simp, Or.inr (Or.inl ?_)⟩
        exact (one_lt_count_fresh_iff hlk).mp hcnt
      · rw [if_neg hcnt]
        have hnoD2 : ¬∃ q ∈ acc, q.1 ≠ k ∧ q.2 = v := by
          intro hc
          exact hcnt ((one_lt_count_fresh_iff hlk).mpr hc)
        have hta2 : ∀ p ∈ acc ++ [(k, v)], p.2.pyTruthy = true := by
          intro p hp
          rcases List.mem_append.mp hp with h | h
          · exact hta p h
          · simp only [List.mem_singleton] at h
            subst h
            exact hv
        have hka2 : (regKeys (acc ++ [(k, v)])).Nodup := by
          simp only [regKeys, List.map_append, List.map_cons, List.map_nil]
          rw [List.nodup_append]
          refine ⟨hka, by simp, ?_⟩
          intro x hx
          simp only [List.mem_singleton]
          intro hxk
          subst hxk
          obtain ⟨q, hq, hq1⟩ := List.mem_map.mp hx
          exact lookupReg_none_iff.mp hlk q hq hq1
        obtain ⟨ihiff, ihmem⟩ :=
          mergedGo_spec rest' (acc ++ [(k, v)]) hta2 htb' hka2 hkb'
        constructor
        · rw [ihiff]
          constructor
          · rintro ⟨p, hp, hconf⟩
            refine ⟨p, List.mem_cons_of_mem _ hp, ?_⟩
            rcases hconf with ⟨old2, hold, hne⟩ | ⟨q, hq, hq1, hq2⟩ | ⟨q, hq, hq1, hq2⟩
            · left
              have hp1k : p.1 ≠ k := hkhead p hp
              rcases hacc : lookupReg acc p.1 with _ | w
              · rw [lookupReg_append_fresh hacc, if_neg (Ne.symm hp1k)] at hold
                cases hold
              · rw [lookupReg_append_left hacc] at hold
                refine ⟨w, rfl, ?_⟩
                injection hold with h2
                rw [h2]
                exact hne
            · rcases List.mem_append.mp hq with h | h
              · exact Or.inr (Or.inl ⟨q, h, hq1, hq2⟩)
              · simp only [List.mem_singleton] at h
                subst h
                exact Or.inr (Or.inr ⟨(k, v), by simp, hq1, hq2⟩)
            · exact Or.inr (Or.inr ⟨q, List.mem_cons_of_mem _ hq, hq1, hq2⟩)
          · rintro ⟨p, hp, hconf⟩
            rcases List.mem_cons.mp hp with hphead | hptail
            · subst hphead
              rcases hconf with ⟨old2, hold, hne⟩ | ⟨q, hq, hq1, hq2⟩ | ⟨q, hq, hq1, hq2⟩
              · rw [hlk] at hold
                cases hold
              · exact absurd ⟨q, hq, hq1, hq2⟩ hnoD2
              · rcases List.mem_cons.mp hq with hqhead | hqtail
                · subst hqhead
                  exact absurd rfl hq1
                · refine ⟨q, hqtail, Or.inr (Or.inl ⟨(k, v), by simp, ?_, hq2.symm⟩)⟩
                  intro hkq
                  exact hq1 hkq.symm
            · refine ⟨p, hptail, ?_⟩
              rcases hconf with ⟨old2, hold, hne⟩ | ⟨q, hq, hq1, hq2⟩ | ⟨q, hq, hq1, hq2⟩
              · exact Or.inl ⟨old2, lookupReg_append_left hold, hne⟩
              · exact Or.inr (Or.inl ⟨q, List.mem_append_left _ hq, hq1, hq2⟩)
              · rcases List.mem_cons.mp hq with hqhead | hqtail
                · subst hqhead
                  refine Or.inr (Or.inl ⟨(k, v), by simp, ?_, hq2⟩)
                  intro hkp
                  exact (hkhead p hptail) hkp.symm
                · exact Or.inr (Or.inr ⟨q, hqtail, hq1, hq2⟩)
        · intro m hm
          obtain ⟨hmacc, hmrest⟩ := ihmem m hm
          refine ⟨fun p hp => hmacc p (List.mem_append_left _ hp), ?_⟩
          intro p hp
          rcases List.mem_cons.mp hp with h | h
          · subst h
            exact hmacc (k, v) (by simp)
          · exact hmrest p h
    · -- key already bound in acc
      have hmem0 : (k, old) ∈ acc := lookupReg_mem hlk
      have htro : old.pyTruthy = true := hta (k, old) hmem0
      by_cases holdv : old = v
      · subst holdv
        rw [if_neg (by simp [htro])]
        rw [setReg_self hlk]
        by_cases hcnt : 1 < (regValues acc).count old
        · rw [if_pos hcnt]
          refine ⟨?_, by intro m hm; cases hm⟩
          refine iff_of_true rfl ⟨(k, old), by simp, Or.inr (Or.inl ?_)⟩
          exact (one_lt_count_iff_mem hka hmem0).mp hcnt
        · rw [if_neg hcnt]
          have hnoD2 : ¬∃ q ∈ acc, q.1 ≠ k ∧ q.2 = old := by
            intro hc
            exact hcnt ((one_lt_count_iff_mem hka hmem0).mpr hc)
          obtain ⟨ihiff, ihmem⟩ := mergedGo_spec rest' acc hta htb' hka hkb'
          constructor
          · rw [ihiff]
            constructor
            · rintro ⟨p, hp, hconf⟩
              refine ⟨p, List.mem_cons_of_mem _ hp, ?_⟩
              rcases hconf with ⟨old2, hold, hne⟩ | ⟨q, hq, hq1, hq2⟩ | ⟨q, hq, hq1, hq2⟩
              · exact Or.inl ⟨old2, hold, hne⟩
              · exact Or.inr (Or.inl ⟨q, hq, hq1, hq2⟩)
              · exact Or.inr (Or.inr ⟨q, List.mem_cons_of_mem _ hq, hq1, hq2⟩)
            · rintro ⟨p, hp, hconf⟩
              rcases List.mem_cons.mp hp with hphead | hptail
              · subst hphead
                rcases hconf with ⟨old2, hold, hne⟩ | ⟨q, hq, hq1, hq2⟩ | ⟨q, hq, hq1, hq2⟩
                · rw [hlk] at hold
                  cases hold
                  exact absurd rfl hne
                · exact absurd ⟨q, hq, hq1, hq2⟩ hnoD2
                · rcases List.mem_cons.mp hq with hqhead | hqtail
                  · subst hqhead
                    exact absurd rfl hq1
                  · refine ⟨q, hqtail, Or.inr (Or.inl ⟨(k, old), hmem0, ?_, hq2.symm⟩)⟩
                    intro hkq
                    exact hq1 hkq.symm
              · refine ⟨p, hptail, ?_⟩
                rcases hconf with ⟨old2, hold, hne⟩ | ⟨q, hq, hq1, hq2⟩ | ⟨q, hq, hq1, hq2⟩
                · exact Or.inl ⟨old2, hold, hne⟩
                · exact Or.inr (Or.inl ⟨q, hq, hq1, hq2⟩)
                · rcases List.mem_cons.mp hq with hqhead | hqtail
                  · subst hqhead
                    refine Or.inr (Or.inl ⟨(k, old), hmem0, ?_, hq2⟩)
                    intro hkp
                    exact (hkhead p hptail) hkp.symm
                  · exact Or.inr (Or.inr ⟨q, hqtail, hq1, hq2⟩)
          · intro m hm
            obtain ⟨hmacc, hmrest⟩ := ihmem m hm
            refine ⟨hmacc, ?_⟩
            intro p hp
            rcases List.mem_cons.mp hp with h | h
            · subst h
              exact hmacc (k, old) hmem0
            · exact hmrest p h
      · rw [if_pos (by simp [htro, holdv])]
        refine ⟨?_, by intro m hm; cases hm⟩
        exact iff_of_true rfl ⟨(k, v), by simp, Or.inl ⟨old, hlk, holdv⟩⟩

end AS

namespace AS

/-- C2 (amended): for registers whose values are all truthy Comparables (for
example entities), merged_with returns None exactly when adding some incoming
pair would map an already-mapped key to a different value or would use one
right-hand value for two different keys; otherwise the result contains every
pair of the receiver and every pair of the incoming register.  (The amendment
restricts the claim to truthy values: merged_with skips incoming pairs whose
value is falsy, so such pairs are missing from the result.) -/
theorem C2_merged_with_amended :
    ∀ a b : Reg,
      (∀ p ∈ a, p.2.pyTruthy = true) → (∀ p ∈ b, p.2.pyTruthy = true) →
      (regKeys a).Nodup → (regKeys b).Nodup →
      ((mergedWith a b = none ↔ MergeConflict a b) ∧
        (∀ m, mergedWith a b = some m →
          (∀ p ∈ a, p ∈ m) ∧ (∀ p ∈ b, p ∈ m))) := by
  intro a b hta htb hka hkb
  obtain ⟨hiff, hmem⟩ := mergedGo_spec b a hta htb hka hkb
  refine ⟨?_, hmem⟩
  rw [show mergedWith a b = mergedGo a b from rfl, hiff]
  constructor
  · rintro ⟨p, hp, hconf⟩
    refine ⟨p, hp, ?_⟩
    rcases hconf with ⟨old, hold, hne⟩ | h | h
    · exact Or.inl ⟨(p.1, old), lookupReg_mem hold, rfl, hne⟩
    · exact Or.inr (Or.inl h)
    · exact Or.inr (Or.inr h)
  · rintro ⟨p, hp, hconf⟩
    refine ⟨p, hp, ?_⟩
    rcases hconf with ⟨q, hq, hq1, hq2⟩ | h | h
    · refine Or.inl ⟨q.2, ?_, hq2⟩
      rw [lookupReg_eq_some_iff hka, ← hq1]
      simpa using hq
    · exact Or.inr (Or.inl h)
    · exact Or.inr (Or.inr h)

/-- C2 witness: the amended characterization instantiated at two concrete
one-pair registers of generic entities. -/
theorem C2_merged_with_witness :
    ((∀ p ∈ ([(entAlice, entBea)] : Reg), p.2.pyTruthy = true) ∧
      (∀ p ∈ ([(entCarl, entDora)] : Reg), p.2.pyTruthy = true) ∧
      (regKeys [(entAlice, entBea)]).Nodup ∧
      (regKeys [(entCarl, entDora)]).Nodup) ∧
    (mergedWith [(entAlice, entBea)] [(entCarl, entDora)] = none ↔
      MergeConflict [(entAlice, entBea)] [(entCarl, entDora)]) :=
  ⟨⟨by decide, by decide, by decide, by decide⟩,
    (C2_merged_with_amended [(entAlice, entBea)] [(entCarl, entDora)]
      (by decide) (by decide) (by decide) (by decide)).1⟩

/-- C2 counterexample: with a zero-length Fact (a falsy Comparable) as the
incoming value, merged_with silently drops the incoming pair: the merge does
not fail, neither injectivity constraint is violated, yet the result register
does not contain the pair of the incoming register, contradicting the claim
that the result holds every pair of both registers. -/
theorem C2_merged_with_counterexample :
    mergedWith [] [(entAlice, factZero)] = some [] ∧
    (entAlice, factZero) ∈ ([(entAlice, factZero)] : Reg) ∧
    (entAlice, factZero) ∉ ([] : Reg) ∧
    ¬MergeConflict [] [(entAlice, factZero)] := by
  refine ⟨by decide, by decide, by decide, ?_⟩
  rintro ⟨p, hp, hconf⟩
  simp only [List.mem_singleton] at hp
  subst hp
  rcases hconf with ⟨q, hq, _⟩ | ⟨q, hq, _⟩ | ⟨q, hq, hq1, _⟩
  · simp at hq
  · simp at hq
  · simp only [List.mem_singleton] at hq
    subst hq
    exact hq1 rfl

end AS

namespace AS

lemma fsizeF_pos (f : Factor) : 1 ≤ fsizeF f := by
  cases f <;> simp [fsizeF]

lemma zip_self (gs : List Factor) : List.zip gs gs = gs.map (fun g => (g, g)) := by
  induction gs with
  | nil => rfl
  | cons g rest ih => simp [List.zip_cons_cons, ih]

lemma foldl_setReg_id : ∀ (ps : List (Factor × Factor)) (acc : Reg),
    (∀ p ∈ ps, p.1 = p.2) → (∀ p ∈ acc, p.1 = p.2) → (regKeys acc).Nodup →
    (∀ p ∈ ps.foldl (fun a q => setReg a q.1 q.2) acc, p.1 = p.2) ∧
      (regKeys (ps.foldl (fun a q => setReg a q.1 q.2) acc)).Nodup ∧
      (∀ p ∈ acc, p ∈ ps.foldl (fun a q => setReg a q.1 q.2) acc) ∧
      (∀ p ∈ ps, p ∈ ps.foldl (fun a q => setReg a q.1 q.2) acc)
  | [], acc => by
    intro _ hacc hnd
    exact ⟨hacc, hnd, fun p hp => hp, by simp⟩
  | (k, v) :: rest, acc => by
    intro hps hacc hnd
    have hkv : k = v := hps (k, v) (by simp)
    subst hkv
    have hrest : ∀ p ∈ rest, p.1 = p.2 := fun p hp =>
      hps p (List.mem_cons_of_mem _ hp)
    simp only [List.foldl_cons]
    rcases hlk : lookupReg acc k with _ | w
    · rw [setReg_fresh k hlk]
      have hacc2 : ∀ p ∈ acc ++ [(k, k)], p.1 = p.2 := by
        intro p hp
        rcases List.mem_append.mp hp with h | h
        · exact hacc p h
        · simp only [List.mem_singleton] at h
          subst h
          rfl
      have hnd2 : (regKeys (acc ++ [(k, k)])).Nodup := by
        simp only [regKeys, List.map_append, List.map_cons, List.map_nil]
        rw [List.nodup_append]
        refine ⟨hnd, by simp, ?_⟩
        intro x hx
        simp only [List.mem_singleton]
        intro hxk
        subst hxk
        obtain ⟨q, hq, hq1⟩ := List.mem_map.mp hx
        exact lookupReg_none_iff.mp hlk q hq hq1
      obtain ⟨h1, h2, h3, h4⟩ := foldl_setReg_id rest (acc ++ [(k, k)]) hrest hacc2 hnd2
      refine ⟨h1, h2, fun p hp => h3 p (List.mem_append_left _ hp), ?_⟩
      intro p hp
      rcases List.mem_cons.mp hp with h | h
      · subst h
        exact h3 (k, k) (by simp)
      · exact h4 p h
    · have hwk : w = k := (hacc (k, w) (lookupReg_mem hlk)).symm
      subst hwk
      rw [setReg_self hlk]
      obtain ⟨h1, h2, h3, h4⟩ := foldl_setReg_id rest acc hrest hacc hnd
      refine ⟨h1, h2, h3, ?_⟩
      intro p hp
      rcases List.mem_cons.mp hp with h | h
      · subst h
        exact h3 (w, w) (lookupReg_mem hlk)
      · exact h4 p h

lemma zipDict_self (gs : List Factor) :
    (∀ p ∈ zipDict gs gs, p.1 = p.2) ∧ (regKeys (zipDict gs gs)).Nodup ∧
      (∀ g ∈ gs, (g, g) ∈ zipDict gs gs) := by
  have hps : ∀ p ∈ gs.map (fun g => (g, g)), p.1 = p.2 := by
    intro p hp
    obtain ⟨g, _, hg⟩ := List.mem_map.mp hp
    rw [← hg]
  have h := foldl_setReg_id (gs.map (fun g => (g, g))) [] hps (by simp) (by simp [regKeys])
  rw [show zipDict gs gs = (gs.map (fun g => (g, g))).foldl
    (fun a q => setReg a q.1 q.2) [] from by rw [zipDict, zip_self]]
  exact ⟨h.1, h.2.1, fun g hg => h.2.2.2 (g, g) (List.mem_map.mpr ⟨g, hg, rfl⟩)⟩

lemma values_eq_keys_of_id {l : Reg} (hid : ∀ p ∈ l, p.1 = p.2) :
    regValues l = regKeys l := by
  simp only [regValues, regKeys]
  exact List.map_congr_left (fun p hp => (hid p hp).symm)

lemma mergedGo_id : ∀ (inc ctx : Reg),
    (∀ p ∈ inc, p.1 = p.2) → (regKeys inc).Nodup →
    (∀ p ∈ ctx, p.1 = p.2) → (regKeys ctx).Nodup →
    ∃ m, mergedGo ctx inc = some m ∧ (∀ p ∈ m, p.1 = p.2) ∧
      (regKeys m).Nodup ∧ (∀ p ∈ ctx, p ∈ m) ∧
      (∀ p ∈ inc, p.2.pyTruthy = true → p ∈ m)
  | [], ctx => by
    intro _ _ hctx hnd
    exact ⟨ctx, rfl, hctx, hnd, fun p hp => hp, by simp⟩
  | (k, v) :: rest, ctx => by
    intro hinc hndinc hctx hndctx
    have hkv : k = v := hinc (k, v) (by simp)
    subst hkv
    have hrest : ∀ p ∈ rest, p.1 = p.2 := fun p hp =>
      hinc p (List.mem_cons_of_mem _ hp)
    have hndrest : (regKeys rest).Nodup := by
      have := hndinc
      simp only [regKeys, List.map_cons, List.nodup_cons] at this
      exact this.2
    rw [mergedGo_cons]
    by_cases htr : k.pyTruthy
    · rw [htr, if_pos rfl]
      rcases hlk : lookupReg ctx k with _ | w
      · rw [if_neg (by simp)]
        rw [setReg_fresh k hlk]
        have hnotmem : ¬(1 < (regValues (ctx ++ [(k, k)])).count k) := by
          have hval : regValues (ctx ++ [(k, k)]) = regKeys ctx ++ [k] := by
            simp only [regValues, regKeys, List.map_append, List.map_cons, List.map_nil]
            rw [show (ctx.map Prod.snd) = ctx.map Prod.fst from
              values_eq_keys_of_id hctx]
          rw [hval, List.count_append]
          have hzero : (regKeys ctx).count k = 0 := by
            rw [List.count_eq_zero]
            intro hmem
            obtain ⟨q, hq, hq1⟩ := List.mem_map.mp hmem
            exact lookupReg_none_iff.mp hlk q hq hq1
          simp [hzero]
        rw [if_neg hnotmem]
        have hctx2 : ∀ p ∈ ctx ++ [(k, k)], p.1 = p.2 := by
          intro p hp
          rcases List.mem_append.mp hp with h | h
          · exact hctx p h
          · simp only [List.mem_singleton] at h
            subst h
            rfl
        have hnd2 : (regKeys (ctx ++ [(k, k)])).Nodup := by
          simp only [regKeys, List.map_append, List.map_cons, List.map_nil]
          rw [List.nodup_append]
          refine ⟨hndctx, by simp, ?_⟩
          intro x hx
          simp only [List.mem_singleton]
          intro hxk
          subst hxk
          obtain ⟨q, hq, hq1⟩ := List.mem_map.mp hx
          exact lookupReg_none_iff.mp hlk q hq hq1
        obtain ⟨m, hm, h1, h2, h3, h4⟩ := mergedGo_id rest (ctx ++ [(k, k)]) hrest hndrest hctx2 hnd2
        refine ⟨m, hm, h1, h2, fun p hp => h3 p (List.mem_append_left _ hp), ?_⟩
        intro p hp ht
        rcases List.mem_cons.mp hp with h | h
        · subst h
          exact h3 (k, k) (by simp)
        · exact h4 p h ht
      · have hwk : w = k := (hctx (k, w) (lookupReg_mem hlk)).symm
        subst hwk
        rw [if_neg (by simp)]
        rw [setReg_self hlk]
        have hcount : ¬(1 < (regValues ctx).count w) := by
          rw [values_eq_keys_of_id hctx]
          have := List.nodup_iff_count_le_one.mp hndctx w
          omega
        rw [if_neg hcount]
        obtain ⟨m, hm, h1, h2, h3, h4⟩ := mergedGo_id rest ctx hrest hndrest hctx hndctx
        refine ⟨m, hm, h1, h2, h3, ?_⟩
        intro p hp ht
        rcases List.mem_cons.mp hp with h | h
        · subst h
          exact h3 (w, w) (lookupReg_mem hlk)
        · exact h4 p h ht
    · have hf : k.pyTruthy = false := by simpa using htr
      rw [hf, if_neg (by simp)]
      obtain ⟨m, hm, h1, h2, h3, h4⟩ := mergedGo_id rest ctx hrest hndrest hctx hndctx
      refine ⟨m, hm, h1, h2, h3, ?_⟩
      intro p hp ht
      rcases List.mem_cons.mp hp with h | h
      · subst h
        simp only [hf] at ht
        cases ht
      · exact h4 p h ht

end AS

namespace AS

lemma ctxRegs_id (x : Factor) (ctx : Reg)
    (hid : ∀ p ∈ ctx, p.1 = p.2) (hnd : (regKeys ctx).Nodup) :
    ∃ m, ctxRegs x x ctx = [m] ∧ (∀ p ∈ m, p.1 = p.2) ∧
      (regKeys m).Nodup ∧ (∀ p ∈ ctx, p ∈ m) ∧
      (∀ g ∈ genericFactors x, g.pyTruthy = true → (g, g) ∈ m) := by
  obtain ⟨hzid, hznd, hzmem⟩ := zipDict_self (genericFactors x)
  obtain ⟨m, hm, h1, h2, h3, h4⟩ :=
    mergedGo_id (zipDict (genericFactors x) (genericFactors x)) ctx hzid hznd hid hnd
  refine ⟨m, ?_, h1, h2, h3, ?_⟩
  · rw [ctxRegs, show mergedWith ctx (zipDict (genericFactors x) (genericFactors x)) =
      mergedGo ctx (zipDict (genericFactors x) (genericFactors x)) from rfl, hm]
  · intro g hg ht
    exact h4 (g, g) (hzmem g hg) ht

lemma ctxRegs_nil_ne (x : Factor) : ctxRegs x x [] ≠ [] := by
  obtain ⟨m, hm, _⟩ := ctxRegs_id x [] (by simp) (by simp [regKeys])
  rw [hm]
  simp

theorem geExplF_refl : ∀ n : Nat,
    (∀ x : Factor, 16 * fsizeF x ≤ n → wfChildren x = true →
      geExplF n x x [] ≠ []) ∧
    (∀ l : List Factor, 8 + 16 * fsizeFL l ≤ n → wfChildrenL l = true →
      cgaF n l l = true) := by
  intro n
  induction n using Nat.strong_induction_on with
  | _ n ih =>
    constructor
    · intro x hn hwf
      have h1 : 1 ≤ fsizeF x := fsizeF_pos x
      obtain ⟨m, rfl⟩ : ∃ m, n = m + 3 := ⟨n - 3, by omega⟩
      have hiip : iipF (m + 2) x x [] ≠ [] := by
        rw [show iipF (m + 2) x x [] =
          (if x.genericF && (match lookupReg [] x with
              | none => true
              | some w => w = x) then [[(x, x)]] else []) ++
            (if !x.genericF then iicF (m + 1) x x [] else []) from rfl]
        by_cases hg : x.genericF
        · rw [show lookupReg [] x = none from rfl]
          simp [hg]
        · have hgf : x.genericF = false := by simpa using hg
          have hiic : iicF (m + 1) x x [] ≠ [] := by
            cases x with
            | entity nm g pl ab =>
              rw [show iicF (m + 1) (.entity nm g pl ab) (.entity nm g pl ab) [] =
                (if nm = nm && pl = pl then
                  ctxRegs (.entity nm g pl ab) (.entity nm g pl ab) [] else []) from rfl]
              simpa using ctxRegs_nil_ne (.entity nm g pl ab)
            | fact pr cf nm sop ab g =>
              rw [show iicF (m + 1) (.fact pr cf nm sop ab g) (.fact pr cf nm sop ab g) [] =
                (if sop.isSome = sop.isSome && !(sop.isSome && sopLt sop sop) &&
                    predGeN pr pr then
                  (if cgaF m cf cf then
                    ctxRegs (.fact pr cf nm sop ab g) (.fact pr cf nm sop ab g) []
                  else [])
                else []) from rfl]
              have hsop : sopLt sop sop = false := by
                cases sop with
                | none => rfl
                | some a => simp [sopLt]
              have hpge : predGeN pr pr = true := by
                simp [predGeN, predMeansN]
              have hcga : cgaF m cf cf = true := by
                have hb : 8 + 16 * fsizeFL cf ≤ m := by
                  have : fsizeF (.fact pr cf nm sop ab g) = 1 + fsizeFL cf := rfl
                  omega
                exact (ih m (by omega)).2 cf hb (by
                  have : wfChildren (.fact pr cf nm sop ab g) = wfChildrenL cf := rfl
                  rw [← this]
                  exact hwf)
              rw [hsop, hpge, hcga]
              simpa using ctxRegs_nil_ne (.fact pr cf nm sop ab g)
          simp only [hgf]
          simpa using hiic
      rw [show geExplF (m + 3) x x [] =
        (if x.isEntity = x.isEntity then
          if !x.absentF then
            (if !x.absentF then iipF (m + 2) x x [] else cipF (m + 2) x x [])
          else
            (if x.absentF then (iipF (m + 2) x x (revReg [])).map revReg
            else (cipF (m + 2) x x (revReg [])).map revReg)
        else []) from rfl]
      rw [if_pos rfl]
      by_cases hab : x.absentF
      · have habf : (!x.absentF) = false := by simp [hab]
        rw [habf, if_neg (by simp), if_pos hab]
        rw [show revReg [] = [] from rfl]
        simpa using hiip
      · have habt : (!x.absentF) = true := by simp [hab]
        rw [habt, if_pos rfl, if_pos rfl]
        exact hiip
    · intro l hn hwf
      match l, hn with
      | [], _ =>
        obtain ⟨m, rfl⟩ : ∃ m, n = m + 1 := ⟨n - 1, by omega⟩
        rfl
      | f :: fs, hn =>
        obtain ⟨m, rfl⟩ : ∃ m, n = m + 1 := ⟨n - 1, by omega⟩
        have hsz : fsizeFL (f :: fs) = fsizeF f + fsizeFL fs := rfl
        have hf1 : 1 ≤ fsizeF f := fsizeF_pos f
        simp only [wfChildrenL, Bool.and_eq_true] at hwf
        obtain ⟨⟨htr, hwff⟩, hwffs⟩ := hwf
        have hge : geExplF m f f [] ≠ [] :=
          (ih m (by omega)).1 f (by omega) hwff
        rw [show cgaF (m + 1) (f :: fs) (f :: fs) =
          ((f.pyTruthy && !(geExplF m f f []).isEmpty) && cgaF m fs fs) from rfl]
        have hcga : cgaF m fs fs = true :=
          (ih m (by omega)).2 fs (by omega) hwffs
        have hemp : (geExplF m f f []).isEmpty = false := by
          rcases hc : geExplF m f f [] with _ | _
          · exact absurd hc hge
          · rfl
        rw [htr, hemp, hcga]
        rfl

theorem meansExplF_refl : ∀ n : Nat,
    (∀ x : Factor, 16 * fsizeF x ≤ n → wfChildren x = true →
      meansExplF n x x [] ≠ []) ∧
    (∀ l : List Factor, 8 + 16 * fsizeFL l ≤ n → wfChildrenL l = true →
      cmaF n l l = true) := by
  intro n
  induction n using Nat.strong_induction_on with
  | _ n ih =>
    constructor
    · intro x hn hwf
      have h1 : 1 ≤ fsizeF x := fsizeF_pos x
      obtain ⟨m, rfl⟩ : ∃ m, n = m + 2 := ⟨n - 2, by omega⟩
      have hmic : x.genericF = false → micF (m + 1) x x [] ≠ [] := by
        intro hgf
        cases x with
        | entity nm g pl ab =>
          rw [show micF (m + 1) (.entity nm g pl ab) (.entity nm g pl ab) [] =
            (if nm = nm && pl = pl then
              ctxRegs (.entity nm g pl ab) (.entity nm g pl ab) [] else []) from rfl]
          simpa using ctxRegs_nil_ne (.entity nm g pl ab)
        | fact pr cf nm sop ab g =>
          rw [show micF (m + 1) (.fact pr cf nm sop ab g) (.fact pr cf nm sop ab g) [] =
            (if predMeansN pr pr && sop = sop then
              (if cmaF m cf cf then
                ctxRegs (.fact pr cf nm sop ab g) (.fact pr cf nm sop ab g) []
              else [])
            else []) from rfl]
          have hpm : predMeansN pr pr = true := by simp [predMeansN]
          have hcma : cmaF m cf cf = true := by
            have hb : 8 + 16 * fsizeFL cf ≤ m := by
              have : fsizeF (.fact pr cf nm sop ab g) = 1 + fsizeFL cf := rfl
              omega
            exact (ih m (by omega)).2 cf hb (by
              have : wfChildren (.fact pr cf nm sop ab g) = wfChildrenL cf := rfl
              rw [← this]
              exact hwf)
          rw [hpm, hcma]
          simpa using ctxRegs_nil_ne (.fact pr cf nm sop ab g)
      rw [show meansExplF (m + 2) x x [] =
        (if x.isEntity = x.isEntity && x.absentF = x.absentF &&
            x.genericF = x.genericF then
          (if x.genericF then [[(x, x)]] else []) ++ micF (m + 1) x x []
        else []) from rfl]
      rw [if_pos (by simp)]
      by_cases hg : x.genericF
      · simp [hg]
      · have hgf : x.genericF = false := by simpa using hg
        rw [hgf]
        simpa using hmic hgf
    · intro l hn hwf
      match l, hn with
      | [], _ =>
        obtain ⟨m, rfl⟩ : ∃ m, n = m + 1 := ⟨n - 1, by omega⟩
        rfl
      | f :: fs, hn =>
        obtain ⟨m, rfl⟩ : ∃ m, n = m + 1 := ⟨n - 1, by omega⟩
        have hsz : fsizeFL (f :: fs) = fsizeF f + fsizeFL fs := rfl
        have hf1 : 1 ≤ fsizeF f := fsizeF_pos f
        simp only [wfChildrenL, Bool.and_eq_true] at hwf
        obtain ⟨⟨htr, hwff⟩, hwffs⟩ := hwf
        have hme : meansExplF m f f [] ≠ [] :=
          (ih m (by omega)).1 f (by omega) hwff
        rw [show cmaF (m + 1) (f :: fs) (f :: fs) =
          ((f.pyTruthy && !(meansExplF m f f []).isEmpty) && cmaF m fs fs) from rfl]
        have hcma : cmaF m fs fs = true :=
          (ih m (by omega)).2 fs (by omega) hwffs
        have hemp : (meansExplF m f f []).isEmpty = false := by
          rcases hc : meansExplF m f f [] with _ | _
          · exact absurd hc hme
          · rfl
        rw [htr, hemp, hcma]
        rfl

lemma factorGe_refl {f : Factor} (hwf : wfChildren f = true) :
    factorGe f f = true := by
  have h := (geExplF_refl (FUEL f f)).1 f (by
    have := fsizeF_pos f
    simp only [FUEL]
    omega) hwf
  rw [factorGe, explanationsImplication]
  rcases hc : geExplF (FUEL f f) f f [] with _ | _
  · exact absurd hc h
  · rfl

lemma factorMeans_refl {f : Factor} (hwf : wfChildren f = true) :
    factorMeans f f = true := by
  have h := (meansExplF_refl (FUEL f f)).1 f (by
    have := fsizeF_pos f
    simp only [FUEL]
    omega) hwf
  rw [factorMeans, explanationsSameMeaning]
  rcases hc : meansExplF (FUEL f f) f f [] with _ | _
  · exact absurd hc h
  · rfl

end AS

namespace AS

lemma enactGe_refl (a : Enactment) : enactGe a a = true := by
  simp only [enactGe, List.all_eq_true]
  intro w hw
  simpa using hw

lemma needsSubset_same (p1 p2 : Procedure) (E D : List Enactment)
    (m1 u1 g1 m2 u2 g2 : Bool) (n1 n2 : Option String) :
    needsSubsetOfEnactments ⟨p1, E, D, m1, u1, g1, n1⟩
      ⟨p2, E, D, m2, u2, g2, n2⟩ = true := by
  simp only [needsSubsetOfEnactments, Bool.and_eq_true, List.all_eq_true]
  constructor
  · intro e he
    exact List.any_eq_true.mpr ⟨e, he, enactGe_refl e⟩
  · intro d hd
    exact List.any_eq_true.mpr ⟨d, List.mem_append_right _ hd, enactGe_refl d⟩

lemma groupExpl_id : ∀ (need avail : List Factor) (ctx : Reg),
    (∀ f ∈ need, f ∈ avail) → (∀ f ∈ need, wfChildren f = true) →
    (∀ p ∈ ctx, p.1 = p.2) → (regKeys ctx).Nodup →
    ∃ m ∈ groupExpl factorGe need avail ctx,
      (∀ p ∈ m, p.1 = p.2) ∧ (regKeys m).Nodup ∧ (∀ p ∈ ctx, p ∈ m) ∧
        (∀ f ∈ need, ∀ g ∈ genericFactors f, g.pyTruthy = true → (g, g) ∈ m)
  | [], avail, ctx => by
    intro _ _ hid hnd
    exact ⟨ctx, by simp [groupExpl], hid, hnd, fun p hp => hp, by simp⟩
  | n :: rest, avail, ctx => by
    intro hsub hwf hid hnd
    have hna : n ∈ avail := hsub n (by simp)
    have hwn : wfChildren n = true := hwf n (by simp)
    obtain ⟨hzid, hznd, hzmem⟩ := zipDict_self (genericFactors n)
    obtain ⟨m1, hm1, hid1, hnd1, hsub1, htr1⟩ :=
      mergedGo_id (zipDict (genericFactors n) (genericFactors n)) ctx hzid hznd hid hnd
    obtain ⟨m, hmmem, hidm, hndm, hsubm, hpairs⟩ :=
      groupExpl_id rest avail m1 (fun f hf => hsub f (List.mem_cons_of_mem _ hf))
        (fun f hf => hwf f (List.mem_cons_of_mem _ hf)) hid1 hnd1
    refine ⟨m, ?_, hidm, hndm, fun p hp => hsubm p (hsub1 p hp), ?_⟩
    · rw [show groupExpl factorGe (n :: rest) avail ctx =
        avail.flatMap (fun a =>
          if factorGe n a then
            match pairMerge ctx n a with
            | some mm => groupExpl factorGe rest avail mm
            | none => []
          else []) from rfl]
      refine List.mem_flatMap.mpr ⟨n, hna, ?_⟩
      rw [if_pos (factorGe_refl hwn)]
      rw [show pairMerge ctx n n =
        mergedGo ctx (zipDict (genericFactors n) (genericFactors n)) from rfl, hm1]
      exact hmmem
    · intro f hf g hg ht
      rcases List.mem_cons.mp hf with h | h
      · subst h
        exact hsubm (g, g) (htr1 (g, g) (hzmem g hg) ht)
      · exact hpairs f h g hg ht

/-- C8 (amended): same-meaning is reflexive for every Factor all of whose
context factors, recursively, are truthy (for example entities, or facts with
at least one slot); and every generic Factor means every other generic Factor
of the same concrete subtype with the same absent flag.  (The amendment adds
the truthiness condition, because the compare_context_factors pre-filter
treats a falsy context factor as a failed comparison, and the same-absent
condition, which explanations_same_meaning requires even of generic
Factors.) -/
theorem C8_means_reflexive_amended :
    (∀ f : Factor, wfChildren f = true → factorMeans f f = true) ∧
    (∀ x y : Factor, x.genericF = true → y.genericF = true →
      x.isEntity = y.isEntity → x.absentF = y.absentF →
      factorMeans x y = true) := by
  constructor
  · intro f hwf
    exact factorMeans_refl hwf
  · intro x y hgx hgy hie hab
    rw [factorMeans, explanationsSameMeaning]
    obtain ⟨m, hm⟩ : ∃ m, FUEL x y = m + 2 :=
      ⟨FUEL x y - 2, by simp only [FUEL]; omega⟩
    rw [hm]
    rw [show meansExplF (m + 2) x y [] =
      (if x.isEntity = y.isEntity && x.absentF = y.absentF &&
          x.genericF = y.genericF then
        (if x.genericF then [[(x, y)]] else []) ++ micF (m + 1) x y []
      else []) from rfl]
    rw [if_pos (by simp [hie, hab, hgx, hgy])]
    rw [hgx, if_pos rfl]
    simp

/-- C8 witness: reflexivity at a concrete Fact with a truthy context, and
same-meaning between two distinct generic entities. -/
theorem C8_means_reflexive_witness :
    (wfChildren factE = true ∧ factorMeans factE factE = true) ∧
    (entAlice.genericF = true ∧ entBea.genericF = true ∧
      entAlice.isEntity = entBea.isEntity ∧ entAlice.absentF = entBea.absentF ∧
      factorMeans entAlice entBea = true) :=
  ⟨⟨by decide, C8_means_reflexive_amended.1 factE (by decide)⟩,
    ⟨by decide, by decide, by decide, by decide,
      C8_means_reflexive_amended.2 entAlice entBea (by decide) (by decide)
        (by decide) (by decide)⟩⟩

/-- C8 counterexample, refuting both halves of the claim as stated.  First, a
concrete constructible Fact whose single context factor is a zero-length
(falsy) Fact does not mean itself: the compare_context_factors pre-filter
requires each of self's context factors to be truthy, so x.means(x) is False
here, refuting unrestricted reflexivity.  Second, two generic entities of the
same concrete subtype that differ only in their absent flag do not mean each
other: explanations_same_meaning requires self.absent == other.absent before
the generic check, refuting the unrestricted generic clause and forcing the
same-absent condition of the amendment. -/
theorem C8_means_counterexample :
    (mkFact pOutside [factZero] none none false false =
        .ok (.fact pOutside [factZero] none none false false) ∧
      factorMeans (.fact pOutside [factZero] none none false false)
        (.fact pOutside [factZero] none none false false) = false) ∧
    (entAlice.genericF = true ∧ (entAlice.setAbsent true).genericF = true ∧
      entAlice.isEntity = (entAlice.setAbsent true).isEntity ∧
      entAlice.absentF ≠ (entAlice.setAbsent true).absentF ∧
      factorMeans entAlice (entAlice.setAbsent true) = false) := by
  refine ⟨⟨?_, ?_⟩, ?_, ?_, ?_, ?_, ?_⟩
  · decide
  · decide
  · decide
  · decide
  · decide
  · decide
  · decide

/-- C3 (amended): for Rules built on the same Procedure and the same
citations, the MUST/ALL Rule implies the MAY/SOME Rule provided the
Procedure's factors are well formed and some output carries a truthy generic
factor (so that the implication search returns a non-empty register; for a
Procedure with no generic factors the search yields only the empty register,
which Rule.implies discards by Python truthiness); and the MAY/SOME Rule
never implies the MUST/ALL Rule, for every such pair. -/
theorem C3_quantifier_implication_amended :
    (∀ (p : Procedure) (ents eds : List Enactment),
      (∀ f ∈ p.outputs ++ p.inputs ++ p.despite, wfChildren f = true) →
      (∃ f ∈ p.outputs, ∃ g ∈ genericFactors f, g.pyTruthy = true) →
      ruleImplies ⟨p, ents, eds, true, true, false, none⟩
        ⟨p, ents, eds, false, false, false, none⟩ [] = true) ∧
    (∀ (p : Procedure) (ents eds : List Enactment),
      ruleImplies ⟨p, ents, eds, false, false, false, none⟩
        ⟨p, ents, eds, true, true, false, none⟩ [] = false) := by
  constructor
  · intro p ents eds hwf hg
    have hwfo : ∀ f ∈ p.outputs, wfChildren f = true := fun f hf =>
      hwf f (List.mem_append_left _ (List.mem_append_left _ hf))
    have hwfi : ∀ f ∈ p.inputs, wfChildren f = true := fun f hf =>
      hwf f (List.mem_append_left _ (List.mem_append_right _ hf))
    have hwfd : ∀ f ∈ p.despite, wfChildren f = true := fun f hf =>
      hwf f (List.mem_append_right _ hf)
    have key : ruleExplImplication ⟨p, ents, eds, true, true, false, none⟩
        ⟨p, ents, eds, false, false, false, none⟩ [] =
        procExplImplicationAllToSome p p [] := by
      simp [ruleExplImplication, needsSubset_same, bge]
    rw [ruleImplies, key]
    obtain ⟨m1, hm1mem, hid1, hnd1, _, hpairs1⟩ :=
      groupExpl_id p.outputs p.outputs [] (fun f hf => hf) hwfo
        (by simp) (by simp [regKeys])
    obtain ⟨m2, hm2mem, hid2, hnd2, hsub2, _⟩ :=
      groupExpl_id p.inputs p.inputs m1 (fun f hf => hf) hwfi hid1 hnd1
    obtain ⟨m3, hm3mem, _, _, hsub3, _⟩ :=
      groupExpl_id p.despite (p.despite ++ p.inputs) m2
        (fun f hf => List.mem_append_left _ hf) hwfd hid2 hnd2
    refine List.any_eq_true.mpr ⟨m3, ?_, ?_⟩
    · rw [procExplImplicationAllToSome]
      exact List.mem_flatMap.mpr ⟨m1, hm1mem,
        List.mem_flatMap.mpr ⟨m2, hm2mem, hm3mem⟩⟩
    · obtain ⟨f, hf, g, hgf, htr⟩ := hg
      have hmem : (g, g) ∈ m3 :=
        hsub3 (g, g) (hsub2 (g, g) (hpairs1 f hf g hgf htr))
      rcases hm3 : m3 with _ | _
      · subst hm3
        simp at hmem
      · rfl
  · intro p ents eds
    simp [ruleImplies, ruleExplImplication, bge]

/-- C3 witness: the amended claim instantiated at the procedure whose single
output carries a generic entity, with one citation. -/
theorem C3_quantifier_implication_witness :
    ((∀ f ∈ procGeneric.outputs ++ procGeneric.inputs ++ procGeneric.despite,
        wfChildren f = true) ∧
      (∃ f ∈ procGeneric.outputs, ∃ g ∈ genericFactors f, g.pyTruthy = true)) ∧
    ruleImplies ⟨procGeneric, [enactCite], [], true, true, false, none⟩
      ⟨procGeneric, [enactCite], [], false, false, false, none⟩ [] = true ∧
    ruleImplies ⟨procGeneric, [enactCite], [], false, false, false, none⟩
      ⟨procGeneric, [enactCite], [], true, true, false, none⟩ [] = false :=
  ⟨⟨by decide, by decide⟩,
    C3_quantifier_implication_amended.1 procGeneric [enactCite] []
      (by decide) (by decide),
    C3_quantifier_implication_amended.2 procGeneric [enactCite] []⟩

/-- C3 counterexample: over a Procedure with no generic factors, the MUST/ALL
Rule does not imply the MAY/SOME Rule as the claim states: the implication
search yields exactly the empty register, and Rule.implies, which tests
Python truthiness of the registers rather than their presence, returns
False. -/
theorem C3_concrete_procedure_counterexample :
    ruleExplImplication ⟨procConcrete, [], [], true, true, false, none⟩
      ⟨procConcrete, [], [], false, false, false, none⟩ [] = [[]] ∧
    ruleImplies ⟨procConcrete, [], [], true, true, false, none⟩
      ⟨procConcrete, [], [], false, false, false, none⟩ [] = false := by
  constructor
  · decide
  · decide

end AS

namespace AS

lemma ne_nil_iff_isEmpty_false {α : Type} (l : List α) :
    l ≠ [] ↔ l.isEmpty = false := by
  cases l <;> simp

/-- C1 (amended): at the Factor layer and (between non-exclusive Holdings) at
the Holding layer, the boolean methods implies, contradicts and means are
True exactly when the corresponding explanation sequence yields at least one
register (explanations never yield None, and an empty register counts).  At
the Rule layer the booleans are computed from Rule-specific methods instead:
implies is True exactly when explain_implication yields at least one
non-empty register (an empty register is falsy and does not count), and
contradicts is True exactly when at least one of the Rules is mandatory, at
least one is universal, and explain_contradiction yields a register; means is
a direct boolean with no explanation sequence. -/
theorem C1_boolean_explanations_amended :
    (∀ x y : Factor,
      (factorGe x y = true ↔ explanationsImplication x y [] ≠ []) ∧
      (factorContradicts x y = true ↔ explanationsContradiction x y [] ≠ []) ∧
      (factorMeans x y = true ↔ explanationsSameMeaning x y [] ≠ [])) ∧
    (∀ h1 h2 : Holding, h1.exclusive = false → h2.exclusive = false →
      (holdingImplies h1 h2 [] = .ok true ↔ impliesNESeq h1 h2 [] ≠ []) ∧
      (holdingContradicts h1 h2 [] = .ok true ↔ contraNESeq h1 h2 [] ≠ []) ∧
      (holdingMeans h1 h2 = true ↔ holdingSameSeq h1 h2 [] ≠ [])) ∧
    (∀ r s : Rule,
      (ruleImplies r s [] = true ↔
        ∃ reg ∈ ruleExplImplication r s [], reg ≠ []) ∧
      (ruleContradicts r s [] = true ↔
        ((r.mandatory = true ∨ s.mandatory = true) ∧
          (r.universal = true ∨ s.universal = true) ∧
          ruleExplContradiction r s [] ≠ []))) := by
  refine ⟨?_, ?_, ?_⟩
  · intro x y
    refine ⟨?_, ?_, ?_⟩
    · rw [factorGe, ne_nil_iff_isEmpty_false]
      cases (explanationsImplication x y []).isEmpty <;> simp
    · rw [factorContradicts, ne_nil_iff_isEmpty_false]
      cases (explanationsContradiction x y []).isEmpty <;> simp
    · rw [factorMeans, ne_nil_iff_isEmpty_false]
      cases (explanationsSameMeaning x y []).isEmpty <;> simp
  · intro h1 h2 hx1 hx2
    refine ⟨?_, ?_, ?_⟩
    · rw [holdingImplies, if_pos (by simp [hx1, hx2])]
      rw [show impliesNE h1 h2 [] = !(impliesNESeq h1 h2 []).isEmpty from rfl]
      rw [ne_nil_iff_isEmpty_false]
      cases (impliesNESeq h1 h2 []).isEmpty <;> simp
    · rw [holdingContradicts]
      rw [show nonexclusiveHoldings h1 = .ok [h1] from by
        simp [nonexclusiveHoldings, hx1]]
      rw [show nonexclusiveHoldings h2 = .ok [h2] from by
        simp [nonexclusiveHoldings, hx2]]
      simp only [List.any_cons, List.any_nil, Bool.or_false]
      rw [ne_nil_iff_isEmpty_false]
      cases (contraNESeq h1 h2 []).isEmpty <;> simp
    · rw [holdingMeans, ne_nil_iff_isEmpty_false]
      cases (holdingSameSeq h1 h2 []).isEmpty <;> simp
  · intro r s
    constructor
    · rw [ruleImplies]
      rw [List.any_eq_true]
      constructor
      · rintro ⟨reg, hreg, hne⟩
        refine ⟨reg, hreg, ?_⟩
        rw [ne_nil_iff_isEmpty_false]
        cases hr : reg.isEmpty
        · rfl
        · rw [hr] at hne
          cases hne
      · rintro ⟨reg, hreg, hne⟩
        refine ⟨reg, hreg, ?_⟩
        rw [ne_nil_iff_isEmpty_false] at hne
        rw [hne]
        rfl
    · rw [ruleContradicts, ne_nil_iff_isEmpty_false]
      cases hm1 : r.mandatory <;> cases hm2 : s.mandatory <;>
        cases hu1 : r.universal <;> cases hu2 : s.universal <;>
        cases he : (ruleExplContradiction r s []).isEmpty <;> decide

/-- C1 witness: the Holding-layer clause instantiated at two concrete
non-exclusive Holdings. -/
theorem C1_boolean_explanations_witness :
    (holdingDecided.exclusive = false ∧ holdingUndecided.exclusive = false) ∧
    ((holdingImplies holdingDecided holdingUndecided [] = .ok true ↔
        impliesNESeq holdingDecided holdingUndecided [] ≠ []) ∧
      (holdingContradicts holdingDecided holdingUndecided [] = .ok true ↔
        contraNESeq holdingDecided holdingUndecided [] ≠ []) ∧
      (holdingMeans holdingDecided holdingUndecided = true ↔
        holdingSameSeq holdingDecided holdingUndecided [] ≠ [])) :=
  ⟨⟨rfl, rfl⟩,
    C1_boolean_explanations_amended.2.1 holdingDecided holdingUndecided rfl rfl⟩

/-- C1 counterexample: a Rule over a fully concrete Procedure: its
explain_implication sequence toward itself yields exactly one non-null (but
empty) ContextRegister, yet Rule.implies returns False, because any() tests
the Python truthiness of each register and an empty dict is falsy.  This
refutes the claim that the boolean is True exactly when the sequence yields a
non-null register at the Rule layer. -/
theorem C1_rule_empty_register_counterexample :
    ruleExplImplication ruleConcrete ruleConcrete [] = [[]] ∧
    ruleImplies ruleConcrete ruleConcrete [] = false := by
  constructor
  · decide
  · decide

/-- C10: two Rules neither of which is mandatory never contradict: the guard
in Rule.contradicts returns False before any context search. -/
theorem C10_nonmandatory_never_contradict :
    ∀ (r s : Rule) (ctx : Reg), r.mandatory = false → s.mandatory = false →
      ruleContradicts r s ctx = false := by
  intro r s ctx hr hs
  rw [ruleContradicts, hr, hs]
  rfl

/-- C10 witness: two universal non-mandatory Rules with contradictory
outputs: the contradiction explanations are non-empty, yet contradicts is
False. -/
theorem C10_nonmandatory_never_contradict_witness :
    ruleArmed.mandatory = false ∧ ruleUnarmed.mandatory = false ∧
    ruleArmed.universal = true ∧ ruleUnarmed.universal = true ∧
    factorContradicts factArmed factUnarmed = true ∧
    ruleExplContradiction ruleArmed ruleUnarmed [] ≠ [] ∧
    ruleContradicts ruleArmed ruleUnarmed [] = false :=
  ⟨rfl, rfl, rfl, rfl, by decide, by decide,
    C10_nonmandatory_never_contradict ruleArmed ruleUnarmed [] rfl rfl⟩

end AS

namespace AS

lemma impliesNESeq_mixed (s o : Holding) (ctx : Reg) (h : s.decided ≠ o.decided) :
    impliesNESeq s o ctx = [] := by
  rw [impliesNESeq]
  cases hs : s.decided <;> cases ho : o.decided
  · exact absurd (hs.trans ho.symm) h
  · rfl
  · rfl
  · exact absurd (hs.trans ho.symm) h

lemma impliesNE_mixed (s o : Holding) (h : s.decided ≠ o.decided) :
    impliesNE s o [] = false := by
  rw [impliesNE, impliesNESeq_mixed s o [] h]
  rfl

lemma nonexclusiveHoldings_decided (h : Holding) (hwf : HoldingWF h)
    (l : List Holding) (hl : nonexclusiveHoldings h = .ok l) :
    l ≠ [] ∧ ∀ x ∈ l, x.decided = h.decided := by
  cases hex : h.exclusive
  · rw [nonexclusiveHoldings, hex] at hl
    simp only [Bool.not_false, if_true] at hl
    have hl2 : l = [h] := by injection hl with h2; exact h2.symm
    subst hl2
    refine ⟨by simp, ?_⟩
    intro x hx
    rw [List.mem_singleton.mp hx]
  · obtain ⟨hrv, hd⟩ := hwf hex
    rw [nonexclusiveHoldings, hex] at hl
    simp only [Bool.not_true, if_false] at hl
    cases hgc : getContrapositives h.rule with
    | error e =>
      rw [hgc] at hl
      cases hl
    | ok rs =>
      rw [hgc] at hl
      have hl2 : l = ⟨h.rule, h.rule_valid, h.decided, false, h.generic⟩ ::
          rs.map (fun r => ⟨r, true, true, false, false⟩) := by
        injection hl with h2
        exact h2.symm
      subst hl2
      refine ⟨by simp, ?_⟩
      intro x hx
      rcases List.mem_cons.mp hx with hx1 | hx2
      · rw [hx1]
      · rcases List.mem_map.mp hx2 with ⟨r, _, hr⟩
        rw [← hr]
        exact hd.symm

lemma verboseGo_ok_false (g os : List Holding) (hne : os ≠ [])
    (hall : ∀ o ∈ os, ∀ s ∈ g, impliesNE s o [] = false) :
    verboseGo g os = .ok false := by
  cases os with
  | nil => exact absurd rfl hne
  | cons o rest =>
    have hany : g.any (fun s => impliesNE s o []) = false := by
      cases hq : g.any (fun s => impliesNE s o []) with
      | false => rfl
      | true =>
        rcases List.any_eq_true.mp hq with ⟨s, hs, hso⟩
        rw [hall o (List.mem_cons_self o rest) s hs] at hso
        cases hso
    rw [verboseGo, hany]
    rfl

/-- C6 (amended): a pair of constructor-valid Holdings with different decided
flags never has either implying the other; and an undecided Holding about
rule A contradicts a decided Holding about rule B exactly when B's rule's
implication explanations toward A's rule, or B's rule's contradiction
explanations toward A's rule (the check that B would have implied A's
negation), are non-empty: the search runs from the decided rule B toward the
undecided rule A, the opposite direction from the claim. -/
theorem C6_mixed_decidedness_amended :
    (∀ h1 h2 : Holding, HoldingWF h1 → HoldingWF h2 → h1.decided ≠ h2.decided →
      holdingImplies h1 h2 [] ≠ .ok true) ∧
    (∀ h1 h2 : Holding, h1.decided = false → h2.decided = true →
      h1.exclusive = false → h2.exclusive = false →
      h1.rule_valid = true → h2.rule_valid = true →
      (holdingContradicts h1 h2 [] = .ok true ↔
        (ruleExplImplication h2.rule h1.rule [] ≠ [] ∨
          ruleExplContradiction h2.rule h1.rule [] ≠ []))) := by
  constructor
  · intro h1 h2 hwf1 hwf2 hne
    rw [holdingImplies]
    by_cases hex : (!h1.exclusive && !h2.exclusive) = true
    · rw [if_pos hex]
      rw [show impliesNE h1 h2 [] = false from impliesNE_mixed h1 h2 hne]
      simp
    · rw [if_neg hex]
      cases hg1 : nonexclusiveHoldings h1 with
      | error e =>
        cases nonexclusiveHoldings h2 <;> exact fun hc => Except.noConfusion hc
      | ok g1 =>
        cases hg2 : nonexclusiveHoldings h2 with
        | error e => exact fun hc => Except.noConfusion hc
        | ok g2 =>
          obtain ⟨hg2ne, hg2d⟩ := nonexclusiveHoldings_decided h2 hwf2 g2 hg2
          obtain ⟨-, hg1d⟩ := nonexclusiveHoldings_decided h1 hwf1 g1 hg1
          have hres : verboseNE g1 g2 = .ok false := by
            rw [verboseNE]
            apply verboseGo_ok_false
            · intro hrev
              exact hg2ne (List.reverse_eq_nil_iff.mp hrev)
            · intro o ho s hs
              apply impliesNE_mixed
              rw [hg1d s hs, hg2d o (List.mem_reverse.mp ho)]
              exact hne
          show verboseNE g1 g2 ≠ .ok true
          rw [hres]
          simp
  · intro h1 h2 hd1 hd2 hx1 hx2 hv1 hv2
    have hneg : h1.negated.rule_valid = false := by
      simp [Holding.negated, hv1]
    have hA : implDecidedSeq h2 h1 [] = ruleExplImplication h2.rule h1.rule [] := by
      rw [implDecidedSeq, hv1, hv2]
      rfl
    have hB : implDecidedSeq h2 h1.negated [] =
        ruleExplContradiction h2.rule h1.rule [] := by
      rw [implDecidedSeq, hv2, hneg]
      rfl
    have hseq : contraNESeq h1 h2 [] =
        ruleExplImplication h2.rule h1.rule [] ++
          ruleExplContradiction h2.rule h1.rule [] := by
      rw [contraNESeq, hd2, hd1]
      show implDecidedSeq h2 h1 [] ++ implDecidedSeq h2 h1.negated [] = _
      rw [hA, hB]
    rw [holdingContradicts]
    rw [show nonexclusiveHoldings h1 = .ok [h1] from by
      simp [nonexclusiveHoldings, hx1]]
    rw [show nonexclusiveHoldings h2 = .ok [h2] from by
      simp [nonexclusiveHoldings, hx2]]
    simp only [List.any_cons, List.any_nil, Bool.or_false]
    rw [hseq]
    rcases ruleExplImplication h2.rule h1.rule [] with _ | ⟨a, as⟩ <;>
      rcases ruleExplContradiction h2.rule h1.rule [] with _ | ⟨b, bs⟩ <;>
        simp

/-- C6 witness: the no-implication clause at a decided/undecided pair, and
the contradiction characterization at the pair in the other order. -/
theorem C6_mixed_decidedness_witness :
    (holdingDecided.decided ≠ holdingUndecided.decided ∧
      holdingImplies holdingDecided holdingUndecided [] ≠ .ok true) ∧
    (holdingContradicts holdingUndecided holdingDecided [] = .ok true ↔
      (ruleExplImplication holdingDecided.rule holdingUndecided.rule [] ≠ [] ∨
        ruleExplContradiction holdingDecided.rule holdingUndecided.rule [] ≠ [])) :=
  ⟨⟨by decide,
    C6_mixed_decidedness_amended.1 holdingDecided holdingUndecided
      (fun hx => Bool.noConfusion hx) (fun hx => Bool.noConfusion hx)
      (by decide)⟩,
    C6_mixed_decidedness_amended.2 holdingUndecided holdingDecided
      rfl rfl rfl rfl rfl rfl⟩

/-- C6 counterexample: the undecided Holding's rule (MUST/ALL) implies the
decided Holding's rule (MAY/SOME) with a non-empty explanation, so the claim
("A's rule would have implied B's rule") says they contradict; but the code
tests the implication from the decided rule B toward the undecided rule A,
which fails here, so contradicts returns False. -/
theorem C6_contradiction_direction_counterexample :
    holdingUndecided.decided = false ∧ holdingDecided.decided = true ∧
    holdingUndecided.rule = ruleMustAll ∧ holdingDecided.rule = ruleMaySome ∧
    ruleImplies ruleMustAll ruleMaySome [] = true ∧
    ruleExplImplication ruleMustAll ruleMaySome [] ≠ [] ∧
    holdingContradicts holdingUndecided holdingDecided [] = .ok false :=
  ⟨rfl, rfl, rfl, rfl, by decide, by decide, by decide⟩

end AS

namespace AS

/-- C7: a Holding with exclusive True over a Rule with inputs A, B and sole
present output C expands to the original Holding with exclusive dropped plus
one contrapositive per input: sole input absent(A) (resp. absent(B)), sole
output absent(C), mandatory and universal flipped, enactments and name
kept. -/
theorem C7_exclusive_expansion :
    ∀ (A B C : Factor) (ents eds : List Enactment) (m u : Bool)
      (nm : Option String),
      A.absentF = false → B.absentF = false → C.absentF = false →
      nonexclusiveHoldings
          ⟨⟨⟨[C], [A, B], []⟩, ents, eds, m, u, false, nm⟩,
            true, true, true, false⟩ =
        .ok [⟨⟨⟨[C], [A, B], []⟩, ents, eds, m, u, false, nm⟩,
            true, true, false, false⟩,
          ⟨⟨⟨[C.setAbsent true], [A.setAbsent true], []⟩, ents, eds,
            !m, !u, false, nm⟩, true, true, false, false⟩,
          ⟨⟨⟨[C.setAbsent true], [B.setAbsent true], []⟩, ents, eds,
            !m, !u, false, nm⟩, true, true, false, false⟩] := by
  intro A B C ents eds m u nm hA hB hC
  rcases A with ⟨na, ga, pa, aa⟩ | ⟨pra, cfa, nma, sa, aa, gga⟩ <;>
    rcases B with ⟨nb, gb, pb, ab2⟩ | ⟨prb, cfb, nmb, sb, ab2, ggb⟩ <;>
      rcases C with ⟨nc, gc2, pc, ac⟩ | ⟨prc, cfc, nmc, sc, ac, ggc⟩ <;>
        simp only [Factor.absentF] at hA hB hC <;>
          subst hA <;> subst hB <;> subst hC <;> rfl

/-- C7 witness: the expansion at a concrete exclusive Holding with two
concrete Fact inputs and one concrete Fact output. -/
theorem C7_exclusive_expansion_witness :
    factArmed.absentF = false ∧ factE.absentF = false ∧
    factZero.absentF = false ∧
    nonexclusiveHoldings
        ⟨⟨⟨[factZero], [factArmed, factE], []⟩, [], [], true, true, false,
          none⟩, true, true, true, false⟩ =
      .ok [⟨⟨⟨[factZero], [factArmed, factE], []⟩, [], [], true, true, false,
            none⟩, true, true, false, false⟩,
        ⟨⟨⟨[factZero.setAbsent true], [factArmed.setAbsent true], []⟩, [], [],
          false, false, false, none⟩, true, true, false, false⟩,
        ⟨⟨⟨[factZero.setAbsent true], [factE.setAbsent true], []⟩, [], [],
          false, false, false, none⟩, true, true, false, false⟩] :=
  ⟨rfl, rfl, rfl,
    C7_exclusive_expansion factArmed factE factZero [] [] true true none
      rfl rfl rfl⟩

end AS

namespace AS

lemma getContrapositives_len_ne_one (r : Rule)
    (hlen : r.procedure.outputs.length ≠ 1) :
    getContrapositives r =
      .error "the exclusive attribute is not allowed for Rules with more than one output Factor" := by
  rw [getContrapositives.eq_def]
  rcases houts : r.procedure.outputs with _ | ⟨o, _ | ⟨o2, rest2⟩⟩
  · rfl
  · rw [houts] at hlen
    exact absurd rfl hlen
  · rfl

/-- C9 (amended): the arity mismatch, the invalid standard of proof and the
invalid comparison operator are all raised at construction; but the invalid
combination of exclusive True with more than one output is NOT: Holding's
constructor accepts it, and the error is raised later, from
get_contrapositives, during a comparison operation. -/
theorem C9_construction_errors_amended :
    (∀ (p : PredicateN) (cfs : List Factor) (nm : Option String)
      (sop : Option String) (ab g : Bool),
      cfs.length ≠ Spoke.countSlots p.content →
      ∃ e, mkFact p cfs nm sop ab g = .error e) ∧
    (∀ (p : PredicateN) (cfs : List Factor) (nm : Option String) (s : String)
      (ab g : Bool), standardsOfProof.contains s = false →
      ∃ e, mkFact p cfs nm (some s) ab g = .error e) ∧
    (∀ (content : String) (truth reciprocal : Bool) (c : String)
      (q : Option Spoke.Quantity), c ≠ "" →
      c ∉ ["==", "!=", ">", ">=", "=", "<>", "<", "<="] →
      ∃ e, Spoke.mkPredicateOld content truth reciprocal (some c) q =
        .error e) ∧
    (∀ r : Rule, r.procedure.outputs.length ≠ 1 →
      mkHolding r true true true false = .ok ⟨r, true, true, true, false⟩ ∧
      ∃ e, holdingImplies ⟨r, true, true, true, false⟩
        ⟨r, true, true, true, false⟩ [] = .error e) := by
  refine ⟨?_, ?_, ?_, ?_⟩
  · intro p cfs nm sop ab g hlen
    cases sop with
    | none =>
      refine ⟨"the number of items in context_factors must match the predicate's slots", ?_⟩
      simp [mkFact, hlen]
    | some s =>
      cases hc : standardsOfProof.contains s with
      | false =>
        have hmem : s ∉ standardsOfProof := by simpa using hc
        refine ⟨"standard of proof must be one of the allowed standards or None", ?_⟩
        simp [mkFact, hmem]
      | true =>
        have hmem : s ∈ standardsOfProof := by simpa using hc
        refine ⟨"the number of items in context_factors must match the predicate's slots", ?_⟩
        simp [mkFact, hmem, hlen]
  · intro p cfs nm s ab g hs
    have hmem : s ∉ standardsOfProof := by simpa using hs
    refine ⟨"standard of proof must be one of the allowed standards or None", ?_⟩
    simp [mkFact, hmem]
  · intro content truth reciprocal c q hne hnotin
    simp only [List.mem_cons, List.not_mem_nil, or_false, not_or] at hnotin
    obtain ⟨h1, h2, h3, h4, h5, h6, h7, h8⟩ := hnotin
    have hopp : Spoke.OPPOSITE c = none := by
      rw [Spoke.OPPOSITE, if_neg h3, if_neg h4, if_neg h5, if_neg h6,
        if_neg h7, if_neg h8]
    have hcont : c ∉ Spoke.validComparisons := by
      simp [Spoke.validComparisons, h3, h4, h5, h6, h7, h8]
    by_cases hb : (decide (Spoke.predLen content q < 2) && reciprocal) = true
    · exact ⟨"reciprocal flag not allowed: fewer than 2 entities", by
        rw [Spoke.mkPredicateOld, if_pos hb]⟩
    · cases truth
      · refine ⟨"KeyError in OPPOSITE_COMPARISONS", ?_⟩
        rw [Spoke.mkPredicateOld, if_neg hb]
        simp [Spoke.cTruthy, hne, h1, h2, hopp]
      · refine ⟨"comparison string parameter must be one of the valid operators", ?_⟩
        rw [Spoke.mkPredicateOld, if_neg hb]
        simp [Spoke.cTruthy, hne, h1, h2, hcont]
  · intro r hlen
    refine ⟨rfl, ?_⟩
    have hnx : nonexclusiveHoldings ⟨r, true, true, true, false⟩ =
        .error "the exclusive attribute is not allowed for Rules with more than one output Factor" := by
      rw [nonexclusiveHoldings]
      rw [show (⟨r, true, true, true, false⟩ : Holding).rule = r from rfl]
      rw [getContrapositives_len_ne_one r hlen]
      rfl
    refine ⟨"the exclusive attribute is not allowed for Rules with more than one output Factor", ?_⟩
    rw [holdingImplies, hnx]
    rfl

/-- C9 witness: each error instantiated concretely: a one-slot predicate with
no context factors; an unknown standard of proof; the invalid operator
string made of two greater-than signs; and the two-output Rule whose
exclusive Holding is accepted at construction and errors during implies. -/
theorem C9_construction_errors_witness :
    (∃ e, mkFact pOutside [] none none false false = .error e) ∧
    (∃ e, mkFact pOutside [entAlice] none (some "beyond a shadow of a doubt")
      false false = .error e) ∧
    (∃ e, Spoke.mkPredicateOld "{} was {}" true false (some ">>") none =
      .error e) ∧
    (mkHolding ruleTwoOutputs true true true false =
        .ok ⟨ruleTwoOutputs, true, true, true, false⟩ ∧
      ∃ e, holdingImplies ⟨ruleTwoOutputs, true, true, true, false⟩
        ⟨ruleTwoOutputs, true, true, true, false⟩ [] = .error e) :=
  ⟨C9_construction_errors_amended.1 pOutside [] none none false false
      (by decide),
    C9_construction_errors_amended.2.1 pOutside [entAlice] none
      "beyond a shadow of a doubt" false false (by decide),
    C9_construction_errors_amended.2.2.1 "{} was {}" true false ">>" none
      (by decide) (by decide),
    C9_construction_errors_amended.2.2.2 ruleTwoOutputs (by decide)⟩

/-- C9 counterexample: the exclusive flag with a two-output Rule is accepted
by Holding's constructor and the descriptive error surfaces only later,
inside the implies comparison, refuting "all raised immediately at
construction, never deferred into comparison". -/
theorem C9_exclusive_deferred_error_counterexample :
    mkHolding ruleTwoOutputs true true true false = .ok holdingTwoOutputs ∧
    holdingImplies holdingTwoOutputs holdingTwoOutputs [] =
      .error "the exclusive attribute is not allowed for Rules with more than one output Factor" := by
  constructor
  · decide
  · decide

end AS
